import Mathlib

/-!
# go-bbhw: GPIO collection factory and sysfs I2C channel

A shallow embedding of `gpio_mmap_collection.go` and `i2c_sysfs.go`.

* `uint32` values are natural numbers; every operation that can leave the
  32-bit range is reduced `% 2 ^ 32`.
* The factory lives behind a pointer that every handle shares, so the
  operations are state transformers on a `World`: the factory together with
  the memory-mapped register file it flushes to.
* A Go run-time panic (index out of range) is an explicit outcome that keeps
  the state reached when the panic was raised.
-/

namespace Bbhw

/-! ## Machine words -/

/-- The modulus of `uint32`. -/
def u32 : Nat := 2 ^ 32

/-- Go `uint32(1 << id)` for a non-constant unsigned shift count: the untyped
constant `1` takes the type `uint32`, so the shift is a 32-bit shift and counts
of 32 and above give 0. -/
def bit32 (id : Nat) : Nat := (1 <<< id) % u32

/-- Go `^x` on a `uint32`: exclusive or with the all-ones word. -/
def not32 (x : Nat) : Nat := (x ^^^ 0xFFFFFFFF) % u32

/-- Go `x | m` on `uint32`. -/
def or32 (x m : Nat) : Nat := (x ||| m) % u32

/-- Go `x & m` on `uint32`. -/
def and32 (x m : Nat) : Nat := (x &&& m) % u32

/-! ## Data model -/

/-- The embedded `MMappedGPIO` of a handle. Its declaration is not part of
`gpio_mmap_collection.go`; the two fields are the ones that file reads, taken
as unsigned integers. -/
structure MMappedGPIO where
  chipid : Nat
  gpioid : Nat
  deriving DecidableEq, Repr

/-- Go `MMappedGPIOCollectionFactory`. -/
structure MMappedGPIOCollectionFactory where
  gpios_to_set : List Nat
  gpios_to_clear : List Nat
  record_changes : Bool
  deriving DecidableEq, Repr

/-- Go `MMappedGPIOInCollection`: the embedded pin address. The `collection`
pointer is the factory of the `World` the operation runs in. -/
structure MMappedGPIOInCollection where
  toMMappedGPIO : MMappedGPIO
  deriving DecidableEq, Repr

/-- The chip index of a handle (promoted field of the embedded struct). -/
def MMappedGPIOInCollection.chipid (gpio : MMappedGPIOInCollection) : Nat :=
  gpio.toMMappedGPIO.chipid

/-- The bit index of a handle (promoted field of the embedded struct). -/
def MMappedGPIOInCollection.gpioid (gpio : MMappedGPIOInCollection) : Nat :=
  gpio.toMMappedGPIO.gpioid

/-- The two register indices `intgpio_setdataout_o32_` and
`intgpio_cleardataout_o32_`. The constants are declared outside the two source
files, so they are parameters of the development. -/
structure RegisterOffsets where
  intgpio_setdataout_o32_ : Nat
  intgpio_cleardataout_o32_ : Nat
  deriving DecidableEq, Repr

/-- One store into the register file: chip, register index, value stored. -/
structure RegWrite where
  chip : Nat
  reg : Nat
  value : Nat
  deriving DecidableEq, Repr

/-- The state the GPIO operations act on: the factory, the register file
`getgpiommap().memgpiochipreg32` (one row of 32-bit registers per chip) and
the history of stores into that file, oldest first. -/
structure World where
  gpiocf : MMappedGPIOCollectionFactory
  memgpiochipreg32 : List (List Nat)
  writes : List RegWrite
  deriving DecidableEq, Repr

/-- How a call ends: it returns a value, or a run-time panic unwinds it. Both
carry the state reached. -/
inductive Outcome (α : Type) where
  | returned (val : α) (w : World)
  | panicked (w : World)
  deriving DecidableEq, Repr

/-- The state a call leaves behind. -/
def Outcome.world {α : Type} : Outcome α → World
  | .returned _ w => w
  | .panicked w => w

/-- The value of a call that returned. -/
def Outcome.value? {α : Type} : Outcome α → Option α
  | .returned v _ => some v
  | .panicked _ => none

/-- Go `error`: `none` is `nil`, `some msg` an error with that text. -/
abbrev GoError := Option String

/-! ## Register file and staging arrays -/

/-- The store `memgpiochipreg32[chip][reg] = v`; `none` when an index is out
of range (the Go statement panics and stores nothing). -/
def storeReg (chip reg v : Nat) (w : World) : Option World :=
  match w.memgpiochipreg32[chip]? with
  | none => none
  | some row =>
    if reg < row.length then
      some { w with
        memgpiochipreg32 := w.memgpiochipreg32.set chip (row.set reg v)
        writes := w.writes ++ [⟨chip, reg, v⟩] }
    else none

/-- The assignment `gpios_to_set[i] = v` on the factory. -/
def putSet (i v : Nat) (w : World) : World :=
  { w with gpiocf := { w.gpiocf with gpios_to_set := w.gpiocf.gpios_to_set.set i v } }

/-- The assignment `gpios_to_clear[i] = v` on the factory. -/
def putClear (i v : Nat) (w : World) : World :=
  { w with gpiocf := { w.gpiocf with gpios_to_clear := w.gpiocf.gpios_to_clear.set i v } }

/-! ## MMappedGPIOCollectionFactory -/

/-- Go `NewMMapedGPIOCollectionFactory`: both staging arrays get one zero word
per chip of the register file; `record_changes` is the zero value. -/
def NewMMapedGPIOCollectionFactory (memgpiochipreg32 : List (List Nat)) :
    MMappedGPIOCollectionFactory :=
  { gpios_to_set := List.replicate memgpiochipreg32.length 0
    gpios_to_clear := List.replicate memgpiochipreg32.length 0
    record_changes := false }

/-- The body of the loop of `EndTransactionApplySetStates` for index `i`: two
stores into the register file, then the two staging words are zeroed. -/
def EndTransactionApplySetStates.body (o : RegisterOffsets) (i : Nat) (w : World) :
    Outcome Unit :=
  match w.gpiocf.gpios_to_set[i]? with
  | none => .panicked w
  | some s =>
    match storeReg i o.intgpio_setdataout_o32_ s w with
    | none => .panicked w
    | some w1 =>
      match w1.gpiocf.gpios_to_clear[i]? with
      | none => .panicked w1
      | some c =>
        match storeReg i o.intgpio_cleardataout_o32_ c w1 with
        | none => .panicked w1
        | some w2 => .returned () (putClear i 0 (putSet i 0 w2))

/-- The `for i, _ := range gpiocf.gpios_to_set` loop over the remaining
indices. -/
def EndTransactionApplySetStates.loop (o : RegisterOffsets) : List Nat → World → Outcome Unit
  | [], w => .returned () w
  | i :: rest, w =>
    match EndTransactionApplySetStates.body o i w with
    | .panicked w1 => .panicked w1
    | .returned _ w1 => EndTransactionApplySetStates.loop o rest w1

/-- Go `EndTransactionApplySetStates`. The range expression is evaluated once,
before the first iteration. -/
def EndTransactionApplySetStates (o : RegisterOffsets) (w : World) : Outcome Unit :=
  match EndTransactionApplySetStates.loop o (List.range w.gpiocf.gpios_to_set.length) w with
  | .panicked w1 => .panicked w1
  | .returned _ w1 =>
    .returned () { w1 with gpiocf := { w1.gpiocf with record_changes := false } }

/-- Go `BeginTransactionRecordSetStates`. -/
def BeginTransactionRecordSetStates (w : World) : Outcome Unit :=
  .returned () { w with gpiocf := { w.gpiocf with record_changes := true } }

/-! ## MMappedGPIOInCollection -/

/-- Modelled from the spec: `MMappedGPIO.SetState`, the immediate write of the
embedded memory-mapped pin, is declared outside the two source files. Per the
spec it "unconditionally writes directly to hardware output registers for this
pin": the pin's bit goes to the chip's set-output register when `state` is
true and to its clear-output register otherwise; nothing else is touched. -/
def MMappedGPIO.SetState (o : RegisterOffsets) (gpio : MMappedGPIO) (state : Bool)
    (w : World) : Outcome GoError :=
  let reg := if state then o.intgpio_setdataout_o32_ else o.intgpio_cleardataout_o32_
  match storeReg gpio.chipid reg (bit32 gpio.gpioid) w with
  | none => .panicked w
  | some w1 => .returned none w1

/-- Go `SetStateNow`. -/
def MMappedGPIOInCollection.SetStateNow (o : RegisterOffsets) (gpio : MMappedGPIOInCollection)
    (state : Bool) (w : World) : Outcome GoError :=
  gpio.toMMappedGPIO.SetState o state w

/-- Go `SetFutureState`. Each of the two compound assignments indexes its
array first, so a chip id outside the first array panics with nothing
changed and one outside the second panics after the first was updated. -/
def MMappedGPIOInCollection.SetFutureState (gpio : MMappedGPIOInCollection) (state : Bool)
    (w : World) : Outcome GoError :=
  if state then
    match w.gpiocf.gpios_to_set[gpio.chipid]? with
    | none => .panicked w
    | some s =>
      let w1 := putSet gpio.chipid (or32 s (bit32 gpio.gpioid)) w
      match w1.gpiocf.gpios_to_clear[gpio.chipid]? with
      | none => .panicked w1
      | some c => .returned none (putClear gpio.chipid (and32 c (not32 (bit32 gpio.gpioid))) w1)
  else
    match w.gpiocf.gpios_to_clear[gpio.chipid]? with
    | none => .panicked w
    | some c =>
      let w1 := putClear gpio.chipid (or32 c (bit32 gpio.gpioid)) w
      match w1.gpiocf.gpios_to_set[gpio.chipid]? with
      | none => .panicked w1
      | some s => .returned none (putSet gpio.chipid (and32 s (not32 (bit32 gpio.gpioid))) w1)

/-- Go `GetFutureState`, returning `(state_known, state, err)`. The clear mask
is only indexed when the set mask does not hold the bit. -/
def MMappedGPIOInCollection.GetFutureState (gpio : MMappedGPIOInCollection) (w : World) :
    Outcome (Bool × Bool × GoError) :=
  match w.gpiocf.gpios_to_set[gpio.chipid]? with
  | none => .panicked w
  | some s =>
    let state := decide (and32 s (bit32 gpio.gpioid) > 0)
    if state then .returned (state, state, none) w
    else
      match w.gpiocf.gpios_to_clear[gpio.chipid]? with
      | none => .panicked w
      | some c => .returned (decide (and32 c (bit32 gpio.gpioid) > 0), state, none) w

/-- Go `SetState`. -/
def MMappedGPIOInCollection.SetState (o : RegisterOffsets) (gpio : MMappedGPIOInCollection)
    (state : Bool) (w : World) : Outcome GoError :=
  if w.gpiocf.record_changes then gpio.SetFutureState state w
  else gpio.SetStateNow o state w

/-! ## Sequences of calls -/

/-- One call on the factory or on one of its handles. -/
inductive Call where
  | BeginTransactionRecordSetStates
  | EndTransactionApplySetStates
  | SetFutureState (gpio : MMappedGPIOInCollection) (state : Bool)
  | SetState (gpio : MMappedGPIOInCollection) (state : Bool)
  | SetStateNow (gpio : MMappedGPIOInCollection) (state : Bool)
  | GetFutureState (gpio : MMappedGPIOInCollection)
  deriving DecidableEq, Repr

/-- A call run for its effect; the returned value is dropped. -/
def Outcome.discard {α : Type} : Outcome α → Outcome Unit
  | .returned _ w => .returned () w
  | .panicked w => .panicked w

/-- The effect of one call. -/
def Call.run (o : RegisterOffsets) : Call → World → Outcome Unit
  | .BeginTransactionRecordSetStates, w => Bbhw.BeginTransactionRecordSetStates w
  | .EndTransactionApplySetStates, w => Bbhw.EndTransactionApplySetStates o w
  | .SetFutureState gpio state, w => (gpio.SetFutureState state w).discard
  | .SetState gpio state, w => (gpio.SetState o state w).discard
  | .SetStateNow gpio state, w => (gpio.SetStateNow o state w).discard
  | .GetFutureState gpio, w => (gpio.GetFutureState w).discard

/-- A program that makes the calls one after the other; a panic ends it. -/
def runCalls (o : RegisterOffsets) : List Call → World → Outcome Unit
  | [], w => .returned () w
  | c :: rest, w =>
    match c.run o w with
    | .panicked w1 => .panicked w1
    | .returned _ w1 => runCalls o rest w1

/-- The world right after construction: a factory made for the register file,
and whatever was stored to the registers before. -/
def World.fresh (memgpiochipreg32 : List (List Nat)) (writes : List RegWrite) : World :=
  { gpiocf := NewMMapedGPIOCollectionFactory memgpiochipreg32
    memgpiochipreg32 := memgpiochipreg32
    writes := writes }

/-! ## Predicates on states -/

/-- The staging masks of every chip share no bit. -/
def MasksDisjoint (f : MMappedGPIOCollectionFactory) : Prop :=
  ∀ c s k : Nat, f.gpios_to_set[c]? = some s → f.gpios_to_clear[c]? = some k → s &&& k = 0

/-- The shape the constructor gives: both staging arrays have one word per
chip of the register file, and every chip's row holds the two data-out
registers. -/
def World.Shaped (o : RegisterOffsets) (w : World) : Prop :=
  w.gpiocf.gpios_to_set.length = w.memgpiochipreg32.length ∧
  w.gpiocf.gpios_to_clear.length = w.memgpiochipreg32.length ∧
  ∀ row ∈ w.memgpiochipreg32,
    o.intgpio_setdataout_o32_ < row.length ∧ o.intgpio_cleardataout_o32_ < row.length

instance (o : RegisterOffsets) (w : World) : Decidable (w.Shaped o) := by
  unfold World.Shaped; infer_instance

/-- Every word of both staging arrays is zero. -/
def StagingZero (f : MMappedGPIOCollectionFactory) : Prop :=
  (∀ x ∈ f.gpios_to_set, x = 0) ∧ (∀ x ∈ f.gpios_to_clear, x = 0)

instance (f : MMappedGPIOCollectionFactory) : Decidable (StagingZero f) := by
  unfold StagingZero; infer_instance

/-- The stores a commit makes for the staging arrays of `f`: for each chip in
turn, its set mask to the set-data-out register and its clear mask to the
clear-data-out register. -/
def flushWrites (o : RegisterOffsets) (f : MMappedGPIOCollectionFactory) : List RegWrite :=
  (List.range f.gpios_to_set.length).flatMap fun i =>
    [⟨i, o.intgpio_setdataout_o32_, f.gpios_to_set.getD i 0⟩,
     ⟨i, o.intgpio_cleardataout_o32_, f.gpios_to_clear.getD i 0⟩]

/-- The row the commit leaves for a chip: its set mask stored in the
set-data-out register, then its clear mask in the clear-data-out register. -/
def flushRow (o : RegisterOffsets) (row : List Nat) (s k : Nat) : List Nat :=
  (row.set o.intgpio_setdataout_o32_ s).set o.intgpio_cleardataout_o32_ k

/-- The state after the first `m` iterations of the commit loop started in
`w`. -/
structure LoopInv (o : RegisterOffsets) (w : World) (m : Nat) (w1 : World) : Prop where
  set_eq : ∀ j, w1.gpiocf.gpios_to_set[j]? =
    if j < m then (w.gpiocf.gpios_to_set[j]?).map (fun _ => 0) else w.gpiocf.gpios_to_set[j]?
  clear_eq : ∀ j, w1.gpiocf.gpios_to_clear[j]? =
    if j < m then (w.gpiocf.gpios_to_clear[j]?).map (fun _ => 0)
    else w.gpiocf.gpios_to_clear[j]?
  flag_eq : w1.gpiocf.record_changes = w.gpiocf.record_changes
  regs_eq : ∀ j, w1.memgpiochipreg32[j]? =
    if j < m then (w.memgpiochipreg32[j]?).map (fun row =>
      flushRow o row (w.gpiocf.gpios_to_set.getD j 0) (w.gpiocf.gpios_to_clear.getD j 0))
    else w.memgpiochipreg32[j]?
  writes_eq : w1.writes = w.writes ++ (List.range m).flatMap fun i =>
    [⟨i, o.intgpio_setdataout_o32_, w.gpiocf.gpios_to_set.getD i 0⟩,
     ⟨i, o.intgpio_cleardataout_o32_, w.gpiocf.gpios_to_clear.getD i 0⟩]

/-! ## I2C channel -/

/-- Go `flagRD`: read data, from slave to master. -/
def flagRD : Nat := 0x0001

/-- Go `ioctlRdwr`. -/
def ioctlRdwr : Nat := 0x707

/-- Go `i2cMsg`. The fields `addr`, `flags` and `length` are `uint16`; the
pointer `buf` is represented by the buffer it points into (the zero pointer by
the empty buffer). -/
structure i2cMsg where
  addr : Nat
  flags : Nat
  length : Nat
  buf : List Nat
  deriving DecidableEq, Repr

/-- Go `rdwrIoctlData`: the pointer `msgs` is represented by the message array
it points to, `nmsgs` is a `uint32`. -/
structure rdwrIoctlData where
  msgs : List i2cMsg
  nmsgs : Nat
  deriving DecidableEq, Repr

/-- Go `SysfsI2C`. The file pointer `fd` is `none` when nil and otherwise names
the open file; the mutex `mu` is `true` while it is held. -/
structure SysfsI2C where
  Bus : Int
  fd : Option Nat
  mu : Bool
  deriving DecidableEq, Repr

/-- The standard-library and kernel services the channel calls. -/
structure Sys where
  /-- Result of `(*os.File).Fd`, which also accepts a nil file. -/
  Fd : Option Nat → Nat
  /-- The `errno` of `syscall.Syscall(SYS_IOCTL, f, op, arg)`. -/
  Syscall : Nat → Nat → rdwrIoctlData → Nat
  /-- Text of `syscall.Errno.Error`. -/
  ErrnoText : Nat → String
  /-- Result of `(*os.File).Close`. -/
  Close : Nat → GoError

/-- A stand-in for the services in which every ioctl reports `errno`, the
error text is that of `EIO`, a nil file has the all-ones descriptor and closing
a file succeeds. -/
def Sys.reporting (errno : Nat) : Sys :=
  { Fd := fun file => file.getD (2 ^ 64 - 1)
    Syscall := fun _ _ _ => errno
    ErrnoText := fun _ => "input/output error"
    Close := fun _ => none }

/-- What a call on the channel does that is visible from outside. The ioctl
event records whether the channel mutex was held when it was issued. -/
inductive BusEvent where
  | lock
  | unlock
  | ioctl (held : Bool) (f op : Nat) (arg : rdwrIoctlData)
  | close (held : Bool) (file : Nat)
  deriving DecidableEq, Repr

/-- How a call on the channel ends: it returns, it panics on a nil receiver,
or it blocks in `Lock` on a mutex that is already held. -/
inductive Ended (α : Type) where
  | returned (val : α)
  | panicked
  | blocked
  deriving DecidableEq, Repr

/-- A completed call on the channel: how it ended, the receiver afterwards and
the events in order. -/
structure BusRun (α : Type) where
  ended : Ended α
  i2c : Option SysfsI2C
  trace : List BusEvent
  deriving DecidableEq, Repr

/-- Go `ioctl`: the error is the non-zero `errno`, `none` is nil. -/
def ioctl (k : Sys) (f op : Nat) (arg : rdwrIoctlData) : Option Nat :=
  let errno := k.Syscall f op arg
  if errno ≠ 0 then some errno else none

/-- The message array `Tx` builds in `buf` and the slice `msgs` over it, for
lines 85 to 100 of `i2c_sysfs.go`. -/
def SysfsI2C.Tx.msgs (addr : Nat) (w r : List Nat) : List i2cMsg :=
  let zero : i2cMsg := ⟨0, 0, 0, []⟩
  let buf : List i2cMsg := [zero, zero]
  let st : List i2cMsg × Nat :=
    if w.length ≠ 0 then
      (buf.set 0 { buf.getD 0 zero with addr := addr, length := w.length % 2 ^ 16, buf := w }, 1)
    else (buf, 0)
  let st : List i2cMsg × Nat :=
    if r.length ≠ 0 then
      let l := st.2
      (st.1.set l { st.1.getD l zero with
          addr := addr, flags := flagRD, length := r.length % 2 ^ 16, buf := r }, l + 1)
    else st
  st.1.take st.2

/-- Go `Tx`. -/
def SysfsI2C.Tx (k : Sys) (i2c : Option SysfsI2C) (addr : Nat) (w r : List Nat) :
    BusRun GoError :=
  if addr ≥ 0x400 then ⟨.returned (some "sysfs-i2c: invalid address"), i2c, []⟩
  else if w.length = 0 ∧ r.length = 0 then ⟨.returned none, i2c, []⟩
  else
    let msgs := SysfsI2C.Tx.msgs addr w r
    let p : rdwrIoctlData := { msgs := msgs, nmsgs := msgs.length % 2 ^ 32 }
    match i2c with
    | none => ⟨.panicked, none, []⟩
    | some ch =>
      if ch.mu then ⟨.blocked, some ch, []⟩
      else
        let locked : SysfsI2C := { ch with mu := true }
        let f := k.Fd locked.fd
        let result : GoError :=
          match ioctl k f ioctlRdwr p with
          | some errno => some ("sysfs-i2c: " ++ k.ErrnoText errno)
          | none => none
        ⟨.returned result, some { locked with mu := false },
          [.lock, .ioctl locked.mu f ioctlRdwr p, .unlock]⟩

/-- Go `Write`. -/
def SysfsI2C.Write (k : Sys) (i2c : Option SysfsI2C) (addr : Nat) (b : List Nat) :
    BusRun (Nat × GoError) :=
  let run := SysfsI2C.Tx k i2c addr b []
  match run.ended with
  | .returned (some err) => ⟨.returned (0, some err), run.i2c, run.trace⟩
  | .returned none => ⟨.returned (b.length, none), run.i2c, run.trace⟩
  | .panicked => ⟨.panicked, run.i2c, run.trace⟩
  | .blocked => ⟨.blocked, run.i2c, run.trace⟩

/-- Go `Close`. -/
def SysfsI2C.Close (k : Sys) (i2c : Option SysfsI2C) : BusRun GoError :=
  match i2c with
  | none => ⟨.returned (some "i2c == nil"), none, []⟩
  | some ch =>
    match ch.fd with
    | none => ⟨.returned (some "i2c.fd == nil"), some ch, []⟩
    | some file =>
      if ch.mu then ⟨.blocked, some ch, []⟩
      else
        let locked : SysfsI2C := { ch with mu := true }
        ⟨.returned (k.Close file), some { locked with mu := false },
          [.lock, .close locked.mu file, .unlock]⟩


/-! ## Specification-side definitions -/

/-- The sizes a call must not change: the lengths of the two staging arrays
and the length of every chip's row of registers. -/
def World.dims (w : World) : Nat × Nat × List Nat :=
  (w.gpiocf.gpios_to_set.length, w.gpiocf.gpios_to_clear.length,
    w.memgpiochipreg32.map List.length)

/-- The update a deferred write makes to one staged word: with `s` the bits of
the mask `m` are set (`x | m`), otherwise they are cleared (`x & ^m`). -/
def stageWord (s : Bool) (m x : Nat) : Nat :=
  if s then or32 x m else and32 x (not32 m)

/-- The state written last to pin `(c, b)` by a list of deferred writes, the
head of the list being the earliest write; `none` when the pin is not written. -/
def lastWrite : List (MMappedGPIOInCollection × Bool) → Nat → Nat → Option Bool
  | [], _, _ => none
  | p :: rest, c, b =>
    match lastWrite rest c b with
    | some s => some s
    | none => if p.1.chipid = c ∧ p.1.gpioid = b then some p.2 else none

/-! ## Bit-level facts -/

theorem testBit_bit32 (b i : Nat) :
    (bit32 b).testBit i = (decide (i < 32) && decide (b = i)) := by
  simp only [bit32, u32, Nat.testBit_mod_two_pow, Nat.one_shiftLeft, Nat.testBit_two_pow]

theorem testBit_not32 (x i : Nat) :
    (not32 x).testBit i = (decide (i < 32) && !x.testBit i) := by
  have h : (0xFFFFFFFF : Nat) = 2 ^ 32 - 1 := by norm_num
  simp only [not32, u32, Nat.testBit_mod_two_pow, Nat.testBit_xor, h,
    Nat.testBit_two_pow_sub_one]
  by_cases hi : i < 32 <;> simp [hi]

theorem testBit_or32 (x m i : Nat) :
    (or32 x m).testBit i = (decide (i < 32) && (x.testBit i || m.testBit i)) := by
  simp only [or32, u32, Nat.testBit_mod_two_pow, Nat.testBit_or]

theorem testBit_and32 (x m i : Nat) :
    (and32 x m).testBit i = (decide (i < 32) && (x.testBit i && m.testBit i)) := by
  simp only [and32, u32, Nat.testBit_mod_two_pow, Nat.testBit_and]

theorem and_eq_zero_iff_testBit (s k : Nat) :
    s &&& k = 0 ↔ ∀ i, ¬ (s.testBit i = true ∧ k.testBit i = true) := by
  constructor
  · intro h i hi
    have := congrArg (fun n => n.testBit i) h
    simp [hi.1, hi.2] at this
  · intro h
    apply Nat.eq_of_testBit_eq
    intro i
    have := h i
    simp only [Nat.testBit_and, Nat.zero_testBit]
    cases hs : s.testBit i <;> cases hk : k.testBit i <;> simp_all

/-- Staging a set bit keeps the two masks of the chip disjoint. -/
theorem disjoint_or_andnot (s k m : Nat) (h : s &&& k = 0) :
    or32 s m &&& and32 k (not32 m) = 0 := by
  rw [and_eq_zero_iff_testBit] at h ⊢
  intro i hi
  have := h i
  simp only [testBit_or32, testBit_and32, testBit_not32] at hi
  cases hs : s.testBit i <;> cases hk : k.testBit i <;> cases hm : m.testBit i <;> simp_all

/-- Staging a clear bit keeps the two masks of the chip disjoint. -/
theorem disjoint_andnot_or (s k m : Nat) (h : s &&& k = 0) :
    and32 s (not32 m) &&& or32 k m = 0 := by
  rw [Nat.and_comm]
  exact disjoint_or_andnot k s m (by rw [Nat.and_comm]; exact h)

/-- The test `x & uint32(1 << b) > 0` reads bit `b` of `x` when `b` is a bit
position of a 32-bit word. -/
theorem and32_bit32_pos (x b : Nat) (hb : b < 32) :
    decide (and32 x (bit32 b) > 0) = x.testBit b := by
  cases hx : x.testBit b
  · have : and32 x (bit32 b) = 0 := by
      apply Nat.eq_of_testBit_eq
      intro i
      simp only [testBit_and32, testBit_bit32, Nat.zero_testBit]
      by_cases hbi : b = i
      · subst hbi; simp [hx]
      · simp [hbi]
    simp [this]
  · have : and32 x (bit32 b) ≠ 0 := by
      intro h0
      have := congrArg (fun n => n.testBit b) h0
      simp [testBit_and32, testBit_bit32, hx, hb] at this
    simp; omega

/-- A shift count of 32 or more gives the zero mask. -/
theorem bit32_eq_zero (b : Nat) (hb : 32 ≤ b) : bit32 b = 0 := by
  apply Nat.eq_of_testBit_eq
  intro i
  simp only [testBit_bit32, Nat.zero_testBit]
  by_cases hbi : b = i
  · subst hbi; simp; omega
  · simp [hbi]

/-! ## Frame facts of the primitive updates -/

@[simp] theorem putSet_set (i v : Nat) (w : World) :
    (putSet i v w).gpiocf.gpios_to_set = w.gpiocf.gpios_to_set.set i v := rfl

@[simp] theorem putSet_clear (i v : Nat) (w : World) :
    (putSet i v w).gpiocf.gpios_to_clear = w.gpiocf.gpios_to_clear := rfl

@[simp] theorem putSet_flag (i v : Nat) (w : World) :
    (putSet i v w).gpiocf.record_changes = w.gpiocf.record_changes := rfl

@[simp] theorem putSet_regs (i v : Nat) (w : World) :
    (putSet i v w).memgpiochipreg32 = w.memgpiochipreg32 := rfl

@[simp] theorem putSet_writes (i v : Nat) (w : World) :
    (putSet i v w).writes = w.writes := rfl

@[simp] theorem putClear_set (i v : Nat) (w : World) :
    (putClear i v w).gpiocf.gpios_to_set = w.gpiocf.gpios_to_set := rfl

@[simp] theorem putClear_clear (i v : Nat) (w : World) :
    (putClear i v w).gpiocf.gpios_to_clear = w.gpiocf.gpios_to_clear.set i v := rfl

@[simp] theorem putClear_flag (i v : Nat) (w : World) :
    (putClear i v w).gpiocf.record_changes = w.gpiocf.record_changes := rfl

@[simp] theorem putClear_regs (i v : Nat) (w : World) :
    (putClear i v w).memgpiochipreg32 = w.memgpiochipreg32 := rfl

@[simp] theorem putClear_writes (i v : Nat) (w : World) :
    (putClear i v w).writes = w.writes := rfl

/-- A register store leaves the factory alone. -/
theorem storeReg_gpiocf {chip reg v : Nat} {w w1 : World}
    (h : storeReg chip reg v w = some w1) : w1.gpiocf = w.gpiocf := by
  unfold storeReg at h
  split at h
  · simp at h
  · split at h
    · simp only [Option.some.injEq] at h
      subst h
      rfl
    · simp at h

/-- A register store appends exactly one entry to the history. -/
theorem storeReg_writes {chip reg v : Nat} {w w1 : World}
    (h : storeReg chip reg v w = some w1) : w1.writes = w.writes ++ [⟨chip, reg, v⟩] := by
  unfold storeReg at h
  split at h
  · simp at h
  · split at h
    · simp only [Option.some.injEq] at h
      subst h
      rfl
    · simp at h

/-! ## The disjoint-mask invariant -/

theorem masksDisjoint_fresh (regs : List (List Nat)) :
    MasksDisjoint (NewMMapedGPIOCollectionFactory regs) := by
  intro c s k hs hk
  simp only [NewMMapedGPIOCollectionFactory, List.getElem?_replicate] at hs hk
  split at hs
  · simp only [Option.some.injEq] at hs hk
    subst hs
    simp
  · simp at hs

theorem masksDisjoint_setFutureState (gpio : MMappedGPIOInCollection) (state : Bool)
    (w : World) (h : MasksDisjoint w.gpiocf) :
    MasksDisjoint (gpio.SetFutureState state w).world.gpiocf := by
  unfold MMappedGPIOInCollection.SetFutureState
  cases state
  · simp only [Bool.false_eq_true, if_false]
    cases hk : w.gpiocf.gpios_to_clear[gpio.chipid]? with
    | none => exact h
    | some k =>
      simp only [putClear_set]
      cases hs : w.gpiocf.gpios_to_set[gpio.chipid]? with
      | none =>
        intro c s1 k1 hs1 hk1
        simp only [Outcome.world, putClear_set, putClear_clear, List.getElem?_set] at hs1 hk1
        by_cases hc : gpio.chipid = c
        · subst hc; rw [hs] at hs1; simp at hs1
        · simp only [hc, if_false] at hk1
          exact h c s1 k1 hs1 hk1
      | some s =>
        intro c s1 k1 hs1 hk1
        simp only [Outcome.world, putSet_set, putSet_clear, putClear_set, putClear_clear,
          List.getElem?_set] at hs1 hk1
        by_cases hc : gpio.chipid = c
        · simp only [hc, if_true] at hs1 hk1
          split at hs1
          · split at hk1
            · simp only [Option.some.injEq] at hs1 hk1
              subst hs1 hk1
              exact disjoint_andnot_or s k _ (h gpio.chipid s k hs hk)
            · simp at hk1
          · simp at hs1
        · simp only [hc, if_false] at hs1 hk1
          exact h c s1 k1 hs1 hk1
  · simp only [if_true]
    cases hs : w.gpiocf.gpios_to_set[gpio.chipid]? with
    | none => exact h
    | some s =>
      simp only [putSet_clear]
      cases hk : w.gpiocf.gpios_to_clear[gpio.chipid]? with
      | none =>
        intro c s1 k1 hs1 hk1
        simp only [Outcome.world, putSet_set, putSet_clear, List.getElem?_set] at hs1 hk1
        by_cases hc : gpio.chipid = c
        · subst hc; rw [hk] at hk1; simp at hk1
        · simp only [hc, if_false] at hs1
          exact h c s1 k1 hs1 hk1
      | some k =>
        intro c s1 k1 hs1 hk1
        simp only [Outcome.world, putSet_set, putSet_clear, putClear_set, putClear_clear,
          List.getElem?_set] at hs1 hk1
        by_cases hc : gpio.chipid = c
        · simp only [hc, if_true] at hs1 hk1
          split at hs1
          · split at hk1
            · simp only [Option.some.injEq] at hs1 hk1
              subst hs1 hk1
              exact disjoint_or_andnot s k _ (h gpio.chipid s k hs hk)
            · simp at hk1
          · simp at hs1
        · simp only [hc, if_false] at hs1 hk1
          exact h c s1 k1 hs1 hk1

/-- An immediate write leaves the factory alone, whether it returns or panics. -/
theorem setStateNow_gpiocf (o : RegisterOffsets) (gpio : MMappedGPIOInCollection)
    (state : Bool) (w : World) : (gpio.SetStateNow o state w).world.gpiocf = w.gpiocf := by
  unfold MMappedGPIOInCollection.SetStateNow MMappedGPIO.SetState
  simp only
  split
  · rfl
  · next w1 h => exact storeReg_gpiocf h

/-- Reading the pending state changes nothing. -/
theorem getFutureState_world (gpio : MMappedGPIOInCollection) (w : World) :
    (gpio.GetFutureState w).world = w := by
  unfold MMappedGPIOInCollection.GetFutureState
  split
  · rfl
  · simp only
    split
    · rfl
    · split <;> rfl

theorem masksDisjoint_body (o : RegisterOffsets) (i : Nat) (w : World)
    (h : MasksDisjoint w.gpiocf) :
    MasksDisjoint (EndTransactionApplySetStates.body o i w).world.gpiocf := by
  unfold EndTransactionApplySetStates.body
  split
  · exact h
  · split
    · exact h
    · next w1 h1 =>
      have e1 := storeReg_gpiocf h1
      split
      · simpa only [Outcome.world, e1] using h
      · split
        · simpa only [Outcome.world, e1] using h
        · next w2 h2 =>
          have e2 := storeReg_gpiocf h2
          intro c s1 k1 hs1 hk1
          simp only [Outcome.world, putSet_set, putSet_clear, putClear_set, putClear_clear,
            List.getElem?_set, e2, e1] at hs1 hk1
          by_cases hc : i = c
          · simp only [hc, if_true] at hs1 hk1
            split at hs1
            · split at hk1
              · simp only [Option.some.injEq] at hs1 hk1
                subst hs1 hk1
                rfl
              · simp at hk1
            · simp at hs1
          · simp only [hc, if_false] at hs1 hk1
            exact h c s1 k1 hs1 hk1

theorem masksDisjoint_loop (o : RegisterOffsets) (is : List Nat) (w : World)
    (h : MasksDisjoint w.gpiocf) :
    MasksDisjoint (EndTransactionApplySetStates.loop o is w).world.gpiocf := by
  induction is generalizing w with
  | nil => exact h
  | cons i rest ih =>
    have hb := masksDisjoint_body o i w h
    unfold EndTransactionApplySetStates.loop
    cases hbody : EndTransactionApplySetStates.body o i w with
    | panicked w1 => rw [hbody] at hb; exact hb
    | returned v w1 => rw [hbody] at hb; exact ih w1 hb

theorem masksDisjoint_endTransaction (o : RegisterOffsets) (w : World)
    (h : MasksDisjoint w.gpiocf) :
    MasksDisjoint (EndTransactionApplySetStates o w).world.gpiocf := by
  have hl := masksDisjoint_loop o (List.range w.gpiocf.gpios_to_set.length) w h
  unfold EndTransactionApplySetStates
  cases hloop : EndTransactionApplySetStates.loop o (List.range w.gpiocf.gpios_to_set.length) w with
  | panicked w1 => rw [hloop] at hl; exact hl
  | returned v w1 => rw [hloop] at hl; exact hl

@[simp] theorem discard_world {α : Type} (r : Outcome α) : r.discard.world = r.world := by
  cases r <;> rfl

theorem masksDisjoint_call (o : RegisterOffsets) (c : Call) (w : World)
    (h : MasksDisjoint w.gpiocf) : MasksDisjoint (c.run o w).world.gpiocf := by
  cases c with
  | BeginTransactionRecordSetStates => exact h
  | EndTransactionApplySetStates => exact masksDisjoint_endTransaction o w h
  | SetFutureState gpio state =>
    simp only [Call.run, discard_world]
    exact masksDisjoint_setFutureState gpio state w h
  | SetState gpio state =>
    simp only [Call.run, discard_world, MMappedGPIOInCollection.SetState]
    split
    · exact masksDisjoint_setFutureState gpio state w h
    · rw [setStateNow_gpiocf]; exact h
  | SetStateNow gpio state =>
    simp only [Call.run, discard_world]
    rw [setStateNow_gpiocf]; exact h
  | GetFutureState gpio =>
    simp only [Call.run, discard_world]
    rw [getFutureState_world]; exact h

theorem masksDisjoint_runCalls (o : RegisterOffsets) (calls : List Call) (w : World)
    (h : MasksDisjoint w.gpiocf) : MasksDisjoint (runCalls o calls w).world.gpiocf := by
  induction calls generalizing w with
  | nil => exact h
  | cons c rest ih =>
    have hc := masksDisjoint_call o c w h
    unfold runCalls
    cases hrun : c.run o w with
    | panicked w1 => rw [hrun] at hc; exact hc
    | returned v w1 => rw [hrun] at hc; exact ih w1 hc

/-! ## Claims on the staging masks -/

/-- C1. Disjoint-mask invariant: from a freshly constructed factory, after any
finite sequence of calls (begin, deferred write, write, immediate write, peek,
commit), the set mask and the clear mask of every chip have bitwise AND zero,
so that no bit position 0..31 is 1 in both. -/
theorem C1_disjoint_mask_invariant (o : RegisterOffsets) (regs : List (List Nat))
    (history : List RegWrite) (calls : List Call) (c s k : Nat)
    (hs : (runCalls o calls (World.fresh regs history)).world.gpiocf.gpios_to_set[c]? = some s)
    (hk : (runCalls o calls (World.fresh regs history)).world.gpiocf.gpios_to_clear[c]? = some k) :
    s &&& k = 0 ∧ ∀ b, b < 32 → ¬ (s.testBit b = true ∧ k.testBit b = true) := by
  have h := masksDisjoint_runCalls o calls (World.fresh regs history)
    (masksDisjoint_fresh regs) c s k hs hk
  exact ⟨h, fun b _ => (and_eq_zero_iff_testBit s k).1 h b⟩

/-- Witness for C1: a transaction that stages pin (0, 3) low and then high,
with an immediate write in between, and pin (0, 4) low. -/
theorem C1_disjoint_mask_invariant_witness :
    (runCalls ⟨1, 0⟩ [.BeginTransactionRecordSetStates, .SetState ⟨⟨0, 3⟩⟩ false,
        .SetStateNow ⟨⟨0, 3⟩⟩ false, .SetState ⟨⟨0, 3⟩⟩ true, .SetFutureState ⟨⟨0, 4⟩⟩ false]
      (World.fresh [[0, 0]] [])).world.gpiocf.gpios_to_set[0]? = some 8 ∧
    (runCalls ⟨1, 0⟩ [.BeginTransactionRecordSetStates, .SetState ⟨⟨0, 3⟩⟩ false,
        .SetStateNow ⟨⟨0, 3⟩⟩ false, .SetState ⟨⟨0, 3⟩⟩ true, .SetFutureState ⟨⟨0, 4⟩⟩ false]
      (World.fresh [[0, 0]] [])).world.gpiocf.gpios_to_clear[0]? = some 16 ∧
    (8 &&& 16 = 0 ∧ ∀ b, b < 32 → ¬ (Nat.testBit 8 b = true ∧ Nat.testBit 16 b = true)) :=
  ⟨by decide, by decide,
    C1_disjoint_mask_invariant ⟨1, 0⟩ [[0, 0]] []
      [.BeginTransactionRecordSetStates, .SetState ⟨⟨0, 3⟩⟩ false,
        .SetStateNow ⟨⟨0, 3⟩⟩ false, .SetState ⟨⟨0, 3⟩⟩ true, .SetFutureState ⟨⟨0, 4⟩⟩ false] 0 8 16
      (by decide) (by decide)⟩

/-- The pending-state test of the code reads the bit just staged. -/
theorem testBit_or32_bit32 (x b : Nat) (hb : b < 32) :
    (or32 x (bit32 b)).testBit b = true := by
  simp [testBit_or32, testBit_bit32, hb]

theorem testBit_and32_not32_bit32 (x b : Nat) :
    (and32 x (not32 (bit32 b))).testBit b = false := by
  simp [testBit_and32, testBit_not32, testBit_bit32]

/-- C2. Last write wins: for every state, every handle whose chip id indexes
both staging arrays and whose bit id is in 0..31, and every boolean s,
SetFutureState(s) returns nil, the following GetFutureState returns
state_known = true, state = s and a nil error, and the pin's bit is s in the
set mask and the negation of s in the clear mask. -/
theorem C2_last_write_wins (w : World) (gpio : MMappedGPIOInCollection) (s : Bool)
    (hset : gpio.chipid < w.gpiocf.gpios_to_set.length)
    (hclear : gpio.chipid < w.gpiocf.gpios_to_clear.length)
    (hbit : gpio.gpioid < 32) :
    ∃ w1 ms mc, gpio.SetFutureState s w = .returned none w1 ∧
      gpio.GetFutureState w1 = .returned (true, s, none) w1 ∧
      w1.gpiocf.gpios_to_set[gpio.chipid]? = some ms ∧
      w1.gpiocf.gpios_to_clear[gpio.chipid]? = some mc ∧
      ms.testBit gpio.gpioid = s ∧ mc.testBit gpio.gpioid = !s := by
  have hs0 : w.gpiocf.gpios_to_set[gpio.chipid]? = some w.gpiocf.gpios_to_set[gpio.chipid] :=
    List.getElem?_eq_getElem hset
  have hk0 : w.gpiocf.gpios_to_clear[gpio.chipid]? = some w.gpiocf.gpios_to_clear[gpio.chipid] :=
    List.getElem?_eq_getElem hclear
  cases s
  · refine ⟨putSet gpio.chipid
        (and32 w.gpiocf.gpios_to_set[gpio.chipid] (not32 (bit32 gpio.gpioid)))
        (putClear gpio.chipid (or32 w.gpiocf.gpios_to_clear[gpio.chipid] (bit32 gpio.gpioid)) w),
      and32 w.gpiocf.gpios_to_set[gpio.chipid] (not32 (bit32 gpio.gpioid)),
      or32 w.gpiocf.gpios_to_clear[gpio.chipid] (bit32 gpio.gpioid), ?_, ?_, ?_, ?_, ?_, ?_⟩
    · simp only [MMappedGPIOInCollection.SetFutureState, Bool.false_eq_true, if_false, hk0,
        putClear_set, hs0]
    · simp [MMappedGPIOInCollection.GetFutureState, hset, hclear, and32_bit32_pos _ _ hbit,
        testBit_and32_not32_bit32, testBit_or32_bit32 _ _ hbit]
    · simp [hset]
    · simp [hclear]
    · exact testBit_and32_not32_bit32 _ _
    · exact testBit_or32_bit32 _ _ hbit
  · refine ⟨putClear gpio.chipid
        (and32 w.gpiocf.gpios_to_clear[gpio.chipid] (not32 (bit32 gpio.gpioid)))
        (putSet gpio.chipid (or32 w.gpiocf.gpios_to_set[gpio.chipid] (bit32 gpio.gpioid)) w),
      or32 w.gpiocf.gpios_to_set[gpio.chipid] (bit32 gpio.gpioid),
      and32 w.gpiocf.gpios_to_clear[gpio.chipid] (not32 (bit32 gpio.gpioid)), ?_, ?_, ?_, ?_, ?_, ?_⟩
    · simp only [MMappedGPIOInCollection.SetFutureState, if_true, hs0, putSet_clear, hk0]
    · simp [MMappedGPIOInCollection.GetFutureState, hset, and32_bit32_pos _ _ hbit,
        testBit_or32_bit32 _ _ hbit]
    · simp [hset]
    · simp [hclear]
    · exact testBit_or32_bit32 _ _ hbit
    · exact testBit_and32_not32_bit32 _ _

/-- Witness for C2: pin (0, 3) is staged low in a state that holds it staged
high. -/
theorem C2_last_write_wins_witness :
    (0 < [8].length ∧ 0 < [0].length ∧ 3 < 32) ∧
    ∃ w1 ms mc,
      (⟨⟨0, 3⟩⟩ : MMappedGPIOInCollection).SetFutureState false ⟨⟨[8], [0], true⟩, [], []⟩
        = .returned none w1 ∧
      (⟨⟨0, 3⟩⟩ : MMappedGPIOInCollection).GetFutureState w1
        = .returned (true, false, none) w1 ∧
      w1.gpiocf.gpios_to_set[0]? = some ms ∧
      w1.gpiocf.gpios_to_clear[0]? = some mc ∧
      ms.testBit 3 = false ∧ mc.testBit 3 = !false :=
  ⟨by decide,
    C2_last_write_wins ⟨⟨[8], [0], true⟩, [], []⟩ ⟨⟨0, 3⟩⟩ false (by decide) (by decide)
      (by decide)⟩

/-! ## The commit loop -/

/-- A register store with both indices in range. -/
theorem storeReg_eq {chip reg v : Nat} {w : World} {row : List Nat}
    (hrow : w.memgpiochipreg32[chip]? = some row) (hreg : reg < row.length) :
    storeReg chip reg v w = some { w with
      memgpiochipreg32 := w.memgpiochipreg32.set chip (row.set reg v)
      writes := w.writes ++ [⟨chip, reg, v⟩] } := by
  simp [storeReg, hrow, hreg]

theorem loopInv_zero (o : RegisterOffsets) (w : World) : LoopInv o w 0 w where
  set_eq := by intro j; simp
  clear_eq := by intro j; simp
  flag_eq := rfl
  regs_eq := by intro j; simp
  writes_eq := by simp

theorem loop_append (o : RegisterOffsets) (xs ys : List Nat) (w : World) :
    EndTransactionApplySetStates.loop o (xs ++ ys) w =
      match EndTransactionApplySetStates.loop o xs w with
      | .panicked w1 => .panicked w1
      | .returned _ w1 => EndTransactionApplySetStates.loop o ys w1 := by
  induction xs generalizing w with
  | nil => rfl
  | cons i rest ih =>
    simp only [List.cons_append, EndTransactionApplySetStates.loop]
    cases EndTransactionApplySetStates.body o i w with
    | panicked w1 => rfl
    | returned v w1 => exact ih w1

/-- One iteration with every index in range. -/
theorem body_eq (o : RegisterOffsets) {i s k : Nat} {w : World} {row : List Nat}
    (hs : w.gpiocf.gpios_to_set[i]? = some s) (hk : w.gpiocf.gpios_to_clear[i]? = some k)
    (hr : w.memgpiochipreg32[i]? = some row)
    (h1 : o.intgpio_setdataout_o32_ < row.length)
    (h2 : o.intgpio_cleardataout_o32_ < row.length) :
    EndTransactionApplySetStates.body o i w = .returned () (putClear i 0 (putSet i 0
      { w with
        memgpiochipreg32 := w.memgpiochipreg32.set i (flushRow o row s k)
        writes := w.writes ++ [⟨i, o.intgpio_setdataout_o32_, s⟩,
          ⟨i, o.intgpio_cleardataout_o32_, k⟩] })) := by
  have hi : i < w.memgpiochipreg32.length := (List.getElem?_eq_some.1 hr).1
  unfold EndTransactionApplySetStates.body
  rw [hs]
  simp only
  rw [storeReg_eq hr h1]
  simp only
  rw [hk]
  simp only
  rw [@storeReg_eq i o.intgpio_cleardataout_o32_ k _ (row.set o.intgpio_setdataout_o32_ s)
    (by simp [hi])
    (by simpa using h2)]
  simp [flushRow]

/-- One iteration in a well-shaped world returns and advances the invariant. -/
theorem loopInv_step (o : RegisterOffsets) (w w1 : World) (m : Nat) (hw : w.Shaped o)
    (hm : m < w.memgpiochipreg32.length) (h : LoopInv o w m w1) :
    ∃ w2, EndTransactionApplySetStates.body o m w1 = .returned () w2 ∧
      LoopInv o w (m + 1) w2 := by
  obtain ⟨hlen_s, hlen_k, hrows⟩ := hw
  have hms : m < w.gpiocf.gpios_to_set.length := by omega
  have hmk : m < w.gpiocf.gpios_to_clear.length := by omega
  have hs : w1.gpiocf.gpios_to_set[m]? = some w.gpiocf.gpios_to_set[m] := by
    rw [h.set_eq]; simp [hms]
  have hk : w1.gpiocf.gpios_to_clear[m]? = some w.gpiocf.gpios_to_clear[m] := by
    rw [h.clear_eq]; simp [hmk]
  have hr : w1.memgpiochipreg32[m]? = some w.memgpiochipreg32[m] := by
    rw [h.regs_eq]; simp [hm]
  have hoff := hrows w.memgpiochipreg32[m] (List.getElem_mem hm)
  have hm1 : m < w1.memgpiochipreg32.length := (List.getElem?_eq_some.1 hr).1
  have hs1 : m < w1.gpiocf.gpios_to_set.length := (List.getElem?_eq_some.1 hs).1
  have hk1 : m < w1.gpiocf.gpios_to_clear.length := (List.getElem?_eq_some.1 hk).1
  have hgs : w.gpiocf.gpios_to_set[m]?.getD 0 = w.gpiocf.gpios_to_set[m] := by
    simp [hms]
  have hgk : w.gpiocf.gpios_to_clear[m]?.getD 0 = w.gpiocf.gpios_to_clear[m] := by
    simp [hmk]
  refine ⟨_, body_eq o hs hk hr hoff.1 hoff.2, ?_⟩
  constructor
  · intro j
    simp only [putClear_set, putSet_set, List.getElem?_set, hs1]
    by_cases hj : m = j
    · subst hj; simp [hms]
    · have : (j < m + 1) = (j < m) := by
        apply propext; constructor <;> intro <;> omega
      simp only [hj, if_false, this]
      exact h.set_eq j
  · intro j
    simp only [putClear_clear, putSet_clear, List.getElem?_set, hk1]
    by_cases hj : m = j
    · subst hj; simp [hmk]
    · have : (j < m + 1) = (j < m) := by
        apply propext; constructor <;> intro <;> omega
      simp only [hj, if_false, this]
      exact h.clear_eq j
  · simpa using h.flag_eq
  · intro j
    simp only [putClear_regs, putSet_regs, List.getElem?_set, List.length_set, hm1]
    by_cases hj : m = j
    · subst hj; simp [hm, flushRow, hgs, hgk]
    · have : (j < m + 1) = (j < m) := by
        apply propext; constructor <;> intro <;> omega
      simp only [hj, if_false, this]
      exact h.regs_eq j
  · simp only [putClear_writes, putSet_writes, h.writes_eq, List.range_succ,
      List.flatMap_append]
    simp
    exact ⟨hgs.symm, hgk.symm⟩

/-- In a well-shaped world the first `m` iterations all return. -/
theorem loop_range (o : RegisterOffsets) (w : World) (hw : w.Shaped o) (m : Nat)
    (hm : m ≤ w.memgpiochipreg32.length) :
    ∃ w1, EndTransactionApplySetStates.loop o (List.range m) w = .returned () w1 ∧
      LoopInv o w m w1 := by
  induction m with
  | zero => exact ⟨w, rfl, loopInv_zero o w⟩
  | succ m ih =>
    obtain ⟨w1, hloop, hinv⟩ := ih (by omega)
    obtain ⟨w2, hbody, hinv2⟩ := loopInv_step o w w1 m hw (by omega) hinv
    refine ⟨w2, ?_, hinv2⟩
    rw [List.range_succ, loop_append, hloop]
    simp only [EndTransactionApplySetStates.loop, hbody]

/-- The commit of a well-shaped world returns, in the state the whole loop
reaches with the recording flag switched off. -/
theorem endTransaction_shaped (o : RegisterOffsets) (w : World) (hw : w.Shaped o) :
    ∃ w1, LoopInv o w w.memgpiochipreg32.length w1 ∧
      EndTransactionApplySetStates o w =
        .returned () { w1 with gpiocf := { w1.gpiocf with record_changes := false } } := by
  obtain ⟨w1, hloop, hinv⟩ := loop_range o w hw w.memgpiochipreg32.length (le_refl _)
  refine ⟨w1, hinv, ?_⟩
  unfold EndTransactionApplySetStates
  rw [hw.1, hloop]

/-- A list all of whose entries in range are zero. -/
theorem all_zero_of_getElem? (l : List Nat)
    (h : ∀ j, j < l.length → l[j]? = some 0) : ∀ x ∈ l, x = 0 := by
  intro x hx
  obtain ⟨j, hj, rfl⟩ := List.mem_iff_getElem.1 hx
  have := h j hj
  rw [List.getElem?_eq_getElem hj] at this
  exact Option.some.inj this

theorem loopInv_set_length {o : RegisterOffsets} {w w1 : World} {m : Nat}
    (h : LoopInv o w m w1) : w1.gpiocf.gpios_to_set.length = w.gpiocf.gpios_to_set.length := by
  apply Nat.le_antisymm
  · by_contra hlt
    have h1 := h.set_eq w.gpiocf.gpios_to_set.length
    rw [List.getElem?_eq_getElem (by omega)] at h1
    simp at h1
  · by_contra hlt
    have h1 := h.set_eq w1.gpiocf.gpios_to_set.length
    rw [List.getElem?_eq_getElem (l := w.gpiocf.gpios_to_set) (by omega)] at h1
    split at h1 <;> simp at h1

theorem loopInv_clear_length {o : RegisterOffsets} {w w1 : World} {m : Nat}
    (h : LoopInv o w m w1) :
    w1.gpiocf.gpios_to_clear.length = w.gpiocf.gpios_to_clear.length := by
  apply Nat.le_antisymm
  · by_contra hlt
    have h1 := h.clear_eq w.gpiocf.gpios_to_clear.length
    rw [List.getElem?_eq_getElem (by omega)] at h1
    simp at h1
  · by_contra hlt
    have h1 := h.clear_eq w1.gpiocf.gpios_to_clear.length
    rw [List.getElem?_eq_getElem (l := w.gpiocf.gpios_to_clear) (by omega)] at h1
    split at h1 <;> simp at h1

/-- C3. After EndTransactionApplySetStates every element of gpios_to_set and of
gpios_to_clear is 0 and record_changes is false, whatever the staging arrays
held and whatever the flag was; the call returns in every state that has the
constructor's shape. -/
theorem C3_commit_zeroes_staging (o : RegisterOffsets) (w : World) (hw : w.Shaped o) :
    ∃ w1, EndTransactionApplySetStates o w = .returned () w1 ∧
      (∀ x ∈ w1.gpiocf.gpios_to_set, x = 0) ∧
      (∀ x ∈ w1.gpiocf.gpios_to_clear, x = 0) ∧
      w1.gpiocf.gpios_to_set.length = w.gpiocf.gpios_to_set.length ∧
      w1.gpiocf.gpios_to_clear.length = w.gpiocf.gpios_to_clear.length ∧
      w1.gpiocf.record_changes = false := by
  obtain ⟨w1, hinv, hret⟩ := endTransaction_shaped o w hw
  have hls := loopInv_set_length hinv
  have hlk := loopInv_clear_length hinv
  refine ⟨_, hret, ?_, ?_, hls, hlk, rfl⟩
  · apply all_zero_of_getElem?
    intro j hj
    have hj1 : j < w1.gpiocf.gpios_to_set.length := hj
    have := hinv.set_eq j
    rw [this]
    have hjw : j < w.gpiocf.gpios_to_set.length := by omega
    have : j < w.memgpiochipreg32.length := by rw [← hw.1]; exact hjw
    simp [this, hjw]
  · apply all_zero_of_getElem?
    intro j hj
    have hj1 : j < w1.gpiocf.gpios_to_clear.length := hj
    have := hinv.clear_eq j
    rw [this]
    have hjw : j < w.gpiocf.gpios_to_clear.length := by omega
    have : j < w.memgpiochipreg32.length := by rw [← hw.2.1]; exact hjw
    simp [this, hjw]

/-- Witness for C3: a two-chip state with pending bits in both masks and the
recording flag on. -/
theorem C3_commit_zeroes_staging_witness :
    (⟨⟨[8, 1], [16, 2], true⟩, [[0, 0], [5, 7]], []⟩ : World).Shaped ⟨1, 0⟩ ∧
    ∃ w1, EndTransactionApplySetStates ⟨1, 0⟩ ⟨⟨[8, 1], [16, 2], true⟩, [[0, 0], [5, 7]], []⟩
        = .returned () w1 ∧
      (∀ x ∈ w1.gpiocf.gpios_to_set, x = 0) ∧
      (∀ x ∈ w1.gpiocf.gpios_to_clear, x = 0) ∧
      w1.gpiocf.gpios_to_set.length = [8, 1].length ∧
      w1.gpiocf.gpios_to_clear.length = [16, 2].length ∧
      w1.gpiocf.record_changes = false :=
  ⟨by decide, C3_commit_zeroes_staging ⟨1, 0⟩ ⟨⟨[8, 1], [16, 2], true⟩, [[0, 0], [5, 7]], []⟩
    (by decide)⟩

/-- A deferred write touches neither the register file, nor the history of
stores, nor the recording flag, nor the length of a staging array. -/
theorem setFutureState_frame (gpio : MMappedGPIOInCollection) (state : Bool) (w : World) :
    (gpio.SetFutureState state w).world.memgpiochipreg32 = w.memgpiochipreg32 ∧
    (gpio.SetFutureState state w).world.writes = w.writes ∧
    (gpio.SetFutureState state w).world.gpiocf.record_changes = w.gpiocf.record_changes ∧
    (gpio.SetFutureState state w).world.gpiocf.gpios_to_set.length =
      w.gpiocf.gpios_to_set.length ∧
    (gpio.SetFutureState state w).world.gpiocf.gpios_to_clear.length =
      w.gpiocf.gpios_to_clear.length := by
  unfold MMappedGPIOInCollection.SetFutureState
  cases state
  · simp only [Bool.false_eq_true, if_false]
    cases w.gpiocf.gpios_to_clear[gpio.chipid]? with
    | none => simp [Outcome.world]
    | some k =>
      simp only [putClear_set]
      cases w.gpiocf.gpios_to_set[gpio.chipid]? <;> simp [Outcome.world]
  · simp only [if_true]
    cases w.gpiocf.gpios_to_set[gpio.chipid]? with
    | none => simp [Outcome.world]
    | some s =>
      simp only [putSet_clear]
      cases w.gpiocf.gpios_to_clear[gpio.chipid]? <;> simp [Outcome.world]

/-- A state with the same register file and staging lengths has the same shape. -/
theorem shaped_of_frame {o : RegisterOffsets} {w w1 : World} (hw : w.Shaped o)
    (hr : w1.memgpiochipreg32 = w.memgpiochipreg32)
    (hs : w1.gpiocf.gpios_to_set.length = w.gpiocf.gpios_to_set.length)
    (hk : w1.gpiocf.gpios_to_clear.length = w.gpiocf.gpios_to_clear.length) :
    w1.Shaped o := by
  unfold World.Shaped at hw ⊢
  rw [hr, hs, hk]
  exact hw

/-- A run of deferred writes keeps the register file, the history of stores,
the recording flag and the lengths of the staging arrays. -/
theorem runDeferred_frame (o : RegisterOffsets) (ws : List (MMappedGPIOInCollection × Bool))
    (w : World) :
    (runCalls o (ws.map fun p => Call.SetFutureState p.1 p.2) w).world.memgpiochipreg32
      = w.memgpiochipreg32 ∧
    (runCalls o (ws.map fun p => Call.SetFutureState p.1 p.2) w).world.writes = w.writes ∧
    (runCalls o (ws.map fun p => Call.SetFutureState p.1 p.2) w).world.gpiocf.record_changes
      = w.gpiocf.record_changes ∧
    (runCalls o (ws.map fun p => Call.SetFutureState p.1 p.2) w).world.gpiocf.gpios_to_set.length
      = w.gpiocf.gpios_to_set.length ∧
    (runCalls o (ws.map fun p => Call.SetFutureState p.1 p.2) w).world.gpiocf.gpios_to_clear.length
      = w.gpiocf.gpios_to_clear.length := by
  induction ws generalizing w with
  | nil => simp [runCalls, Outcome.world]
  | cons p rest ih =>
    have hf := setFutureState_frame p.1 p.2 w
    simp only [List.map_cons, runCalls, Call.run]
    cases hrun : p.1.SetFutureState p.2 w with
    | panicked w1 =>
      rw [hrun] at hf
      simpa [Outcome.discard, Outcome.world] using hf
    | returned v w1 =>
      rw [hrun] at hf
      simp only [Outcome.world] at hf
      simp only [Outcome.discard]
      have := ih w1
      obtain ⟨h1, h2, h3, h4, h5⟩ := this
      obtain ⟨g1, g2, g3, g4, g5⟩ := hf
      exact ⟨h1.trans g1, h2.trans g2, h3.trans g3, h4.trans g4, h5.trans g5⟩

theorem masksDisjoint_of_stagingZero (f : MMappedGPIOCollectionFactory)
    (h : StagingZero f) : MasksDisjoint f := by
  intro c s k hs hk
  have := h.1 s (List.getElem?_mem hs)
  subst this
  simp

theorem getD_flush_set {f : MMappedGPIOCollectionFactory} {o : RegisterOffsets}
    {c r v : Nat} (h : (⟨c, r, v⟩ : RegWrite) ∈ flushWrites o f) :
    c < f.gpios_to_set.length ∧
    ((r = o.intgpio_setdataout_o32_ ∧ v = f.gpios_to_set.getD c 0) ∨
     (r = o.intgpio_cleardataout_o32_ ∧ v = f.gpios_to_clear.getD c 0)) := by
  simp only [flushWrites, List.mem_flatMap, List.mem_range, List.mem_cons,
    RegWrite.mk.injEq, List.mem_singleton, List.not_mem_nil, or_false] at h
  obtain ⟨i, hi, h | h⟩ := h
  · obtain ⟨rfl, rfl, rfl⟩ := h
    exact ⟨hi, Or.inl ⟨rfl, rfl⟩⟩
  · obtain ⟨rfl, rfl, rfl⟩ := h
    exact ⟨hi, Or.inr ⟨rfl, rfl⟩⟩

/-- C4. EndTransactionApplySetStates stores, for every chip index in turn, the
value gpios_to_set[i] had before the call in chip i's set-data-out register and
the value gpios_to_clear[i] had before the call in its clear-data-out register,
and makes no other store: the history of stores grows by exactly these, and
each chip's row of registers is the old row with these two stores applied. -/
theorem C4_commit_writes_staged_values (o : RegisterOffsets) (w : World) (hw : w.Shaped o) :
    ∃ w1, EndTransactionApplySetStates o w = .returned () w1 ∧
      w1.writes = w.writes ++ flushWrites o w.gpiocf ∧
      w1.memgpiochipreg32.length = w.memgpiochipreg32.length ∧
      ∀ i row, w.memgpiochipreg32[i]? = some row →
        w1.memgpiochipreg32[i]? = some (flushRow o row
          (w.gpiocf.gpios_to_set.getD i 0) (w.gpiocf.gpios_to_clear.getD i 0)) := by
  obtain ⟨w1, hinv, hret⟩ := endTransaction_shaped o w hw
  have hreg : ∀ i row, w.memgpiochipreg32[i]? = some row →
      w1.memgpiochipreg32[i]? = some (flushRow o row
        (w.gpiocf.gpios_to_set.getD i 0) (w.gpiocf.gpios_to_clear.getD i 0)) := by
    intro i row hrow
    have hi : i < w.memgpiochipreg32.length := (List.getElem?_eq_some.1 hrow).1
    rw [hinv.regs_eq i, hrow]
    simp [hi]
  refine ⟨_, hret, ?_, ?_, hreg⟩
  · simp only [hinv.writes_eq, flushWrites, hw.1]
  · apply Nat.le_antisymm
    · by_contra hlt
      have h1 := hinv.regs_eq w.memgpiochipreg32.length
      rw [List.getElem?_eq_getElem (by simpa using hlt)] at h1
      simp at h1
    · by_contra hlt
      have hlt1 : w1.memgpiochipreg32.length < w.memgpiochipreg32.length := by simpa using hlt
      have h1 := hreg w1.memgpiochipreg32.length _ (List.getElem?_eq_getElem hlt1)
      simp at h1

/-- Witness for C4: two chips with pending bits; the stores are read off the
masks held before the call. -/
theorem C4_commit_writes_staged_values_witness :
    (⟨⟨[8, 1], [16, 2], true⟩, [[0, 0, 9], [5, 7, 9]], []⟩ : World).Shaped ⟨1, 0⟩ ∧
    ∃ w1, EndTransactionApplySetStates ⟨1, 0⟩
        ⟨⟨[8, 1], [16, 2], true⟩, [[0, 0, 9], [5, 7, 9]], []⟩ = .returned () w1 ∧
      w1.writes = [] ++ flushWrites ⟨1, 0⟩ ⟨[8, 1], [16, 2], true⟩ ∧
      w1.memgpiochipreg32.length = [[0, 0, 9], [5, 7, 9]].length ∧
      ∀ i row, [[0, 0, 9], [5, 7, 9]][i]? = some row →
        w1.memgpiochipreg32[i]? = some (flushRow ⟨1, 0⟩ row
          ([8, 1].getD i 0) ([16, 2].getD i 0)) :=
  ⟨by decide, C4_commit_writes_staged_values ⟨1, 0⟩
    ⟨⟨[8, 1], [16, 2], true⟩, [[0, 0, 9], [5, 7, 9]], []⟩ (by decide)⟩

/-- C5. For every sequence of deferred writes made on a factory whose staging
arrays are all zero (freshly created or just committed), the commit that
follows returns, the stores it makes are exactly the flush of the staged
masks, and for every chip the value stored to its set-data-out register and
the value stored to its clear-data-out register have bitwise AND zero. -/
theorem C5_committed_values_disjoint (o : RegisterOffsets) (w : World)
    (ws : List (MMappedGPIOInCollection × Bool)) (hw : w.Shaped o)
    (hz : StagingZero w.gpiocf)
    (hne : o.intgpio_setdataout_o32_ ≠ o.intgpio_cleardataout_o32_) :
    ∃ w2,
      EndTransactionApplySetStates o
        (runCalls o (ws.map fun p => Call.SetFutureState p.1 p.2) w).world = .returned () w2 ∧
      w2.writes = w.writes ++ flushWrites o
        (runCalls o (ws.map fun p => Call.SetFutureState p.1 p.2) w).world.gpiocf ∧
      ∀ c s k,
        (⟨c, o.intgpio_setdataout_o32_, s⟩ : RegWrite) ∈ flushWrites o
          (runCalls o (ws.map fun p => Call.SetFutureState p.1 p.2) w).world.gpiocf →
        (⟨c, o.intgpio_cleardataout_o32_, k⟩ : RegWrite) ∈ flushWrites o
          (runCalls o (ws.map fun p => Call.SetFutureState p.1 p.2) w).world.gpiocf →
        s &&& k = 0 := by
  obtain ⟨f1, f2, _, f4, f5⟩ := runDeferred_frame o ws w
  have hdis := masksDisjoint_runCalls o (ws.map fun p => Call.SetFutureState p.1 p.2) w
    (masksDisjoint_of_stagingZero _ hz)
  generalize (runCalls o (ws.map fun p => Call.SetFutureState p.1 p.2) w).world = w1
    at f1 f2 f4 f5 hdis
  have hw1 : w1.Shaped o := shaped_of_frame hw f1 f4 f5
  obtain ⟨w2, hinv, hret⟩ := endTransaction_shaped o w1 hw1
  refine ⟨_, hret, ?_, ?_⟩
  · simp only [hinv.writes_eq, flushWrites, hw1.1, f2]
  · intro c s k hs hk
    obtain ⟨hc, hs1⟩ := getD_flush_set hs
    obtain ⟨_, hk1⟩ := getD_flush_set hk
    have hck : c < w1.gpiocf.gpios_to_clear.length := by
      rw [hw1.2.1, ← hw1.1]; exact hc
    rcases hs1 with ⟨_, rfl⟩ | ⟨h, _⟩
    · rcases hk1 with ⟨h, _⟩ | ⟨_, rfl⟩
      · exact absurd h.symm hne
      · apply hdis c
        · simp [List.getD_eq_getElem?_getD, hc]
        · simp [List.getD_eq_getElem?_getD, hck]
    · exact absurd h hne

/-- Witness for C5: on a fresh two-chip factory, pin (0, 3) is staged high,
then low, and pin (1, 0) high. -/
theorem C5_committed_values_disjoint_witness :
    ((World.fresh [[0, 0], [0, 0]] []).Shaped ⟨1, 0⟩ ∧
      StagingZero (World.fresh [[0, 0], [0, 0]] []).gpiocf ∧
      (⟨1, 0⟩ : RegisterOffsets).intgpio_setdataout_o32_ ≠
        (⟨1, 0⟩ : RegisterOffsets).intgpio_cleardataout_o32_) ∧
    ∃ w2,
      EndTransactionApplySetStates ⟨1, 0⟩
        (runCalls ⟨1, 0⟩ (([(⟨⟨0, 3⟩⟩, true), (⟨⟨0, 3⟩⟩, false), (⟨⟨1, 0⟩⟩, true)] :
            List (MMappedGPIOInCollection × Bool)).map fun p => Call.SetFutureState p.1 p.2)
          (World.fresh [[0, 0], [0, 0]] [])).world = .returned () w2 ∧
      w2.writes = (World.fresh [[0, 0], [0, 0]] []).writes ++ flushWrites ⟨1, 0⟩
        (runCalls ⟨1, 0⟩ (([(⟨⟨0, 3⟩⟩, true), (⟨⟨0, 3⟩⟩, false), (⟨⟨1, 0⟩⟩, true)] :
            List (MMappedGPIOInCollection × Bool)).map fun p => Call.SetFutureState p.1 p.2)
          (World.fresh [[0, 0], [0, 0]] [])).world.gpiocf ∧
      ∀ c s k,
        (⟨c, (⟨1, 0⟩ : RegisterOffsets).intgpio_setdataout_o32_, s⟩ : RegWrite) ∈
          flushWrites ⟨1, 0⟩
          (runCalls ⟨1, 0⟩ (([(⟨⟨0, 3⟩⟩, true), (⟨⟨0, 3⟩⟩, false), (⟨⟨1, 0⟩⟩, true)] :
            List (MMappedGPIOInCollection × Bool)).map fun p => Call.SetFutureState p.1 p.2)
          (World.fresh [[0, 0], [0, 0]] [])).world.gpiocf →
        (⟨c, (⟨1, 0⟩ : RegisterOffsets).intgpio_cleardataout_o32_, k⟩ : RegWrite) ∈
          flushWrites ⟨1, 0⟩
          (runCalls ⟨1, 0⟩ (([(⟨⟨0, 3⟩⟩, true), (⟨⟨0, 3⟩⟩, false), (⟨⟨1, 0⟩⟩, true)] :
            List (MMappedGPIOInCollection × Bool)).map fun p => Call.SetFutureState p.1 p.2)
          (World.fresh [[0, 0], [0, 0]] [])).world.gpiocf →
        s &&& k = 0 :=
  ⟨by decide,
    C5_committed_values_disjoint ⟨1, 0⟩ (World.fresh [[0, 0], [0, 0]] [])
      [(⟨⟨0, 3⟩⟩, true), (⟨⟨0, 3⟩⟩, false), (⟨⟨1, 0⟩⟩, true)]
      (by decide) (by decide) (by decide)⟩

/-- While the recording flag is on, a write through SetState leaves the
register file and the history of stores alone and keeps the flag on. -/
theorem setState_recording (o : RegisterOffsets) (gpio : MMappedGPIOInCollection)
    (state : Bool) (w : World) (h : w.gpiocf.record_changes = true) :
    (gpio.SetState o state w).world.memgpiochipreg32 = w.memgpiochipreg32 ∧
    (gpio.SetState o state w).world.writes = w.writes ∧
    (gpio.SetState o state w).world.gpiocf.record_changes = true := by
  obtain ⟨f1, f2, f3, _, _⟩ := setFutureState_frame gpio state w
  simp only [MMappedGPIOInCollection.SetState, h, if_true]
  exact ⟨f1, f2, f3.trans h⟩

theorem runSetState_recording (o : RegisterOffsets)
    (ws : List (MMappedGPIOInCollection × Bool)) (w : World)
    (h : w.gpiocf.record_changes = true) :
    (runCalls o (ws.map fun p => Call.SetState p.1 p.2) w).world.memgpiochipreg32
      = w.memgpiochipreg32 ∧
    (runCalls o (ws.map fun p => Call.SetState p.1 p.2) w).world.writes = w.writes ∧
    (runCalls o (ws.map fun p => Call.SetState p.1 p.2) w).world.gpiocf.record_changes
      = true := by
  induction ws generalizing w with
  | nil => simp [runCalls, Outcome.world, h]
  | cons p rest ih =>
    have hf := setState_recording o p.1 p.2 w h
    simp only [List.map_cons, runCalls, Call.run]
    cases hrun : p.1.SetState o p.2 w with
    | panicked w1 =>
      rw [hrun] at hf
      simpa [Outcome.discard, Outcome.world] using hf
    | returned v w1 =>
      rw [hrun] at hf
      simp only [Outcome.world] at hf
      simp only [Outcome.discard]
      obtain ⟨g1, g2, g3⟩ := hf
      obtain ⟨h1, h2, h3⟩ := ih w1 g3
      exact ⟨h1.trans g1, h2.trans g2, h3⟩

/-- C6. Mode dispatch: SetState(s) is SetFutureState(s), in effect and result,
when record_changes is true, and SetStateNow(s) when it is false; and any run
of SetState calls made after BeginTransactionRecordSetStates leaves the
register file and the history of register stores as they were, with the
recording flag still on. -/
theorem C6_mode_dispatch (o : RegisterOffsets) (gpio : MMappedGPIOInCollection) (s : Bool)
    (w : World) (ws : List (MMappedGPIOInCollection × Bool)) :
    (w.gpiocf.record_changes = true → gpio.SetState o s w = gpio.SetFutureState s w) ∧
    (w.gpiocf.record_changes = false → gpio.SetState o s w = gpio.SetStateNow o s w) ∧
    (runCalls o (Call.BeginTransactionRecordSetStates ::
        ws.map fun p => Call.SetState p.1 p.2) w).world.memgpiochipreg32
      = w.memgpiochipreg32 ∧
    (runCalls o (Call.BeginTransactionRecordSetStates ::
        ws.map fun p => Call.SetState p.1 p.2) w).world.writes = w.writes ∧
    (runCalls o (Call.BeginTransactionRecordSetStates ::
        ws.map fun p => Call.SetState p.1 p.2) w).world.gpiocf.record_changes = true := by
  refine ⟨?_, ?_, ?_⟩
  · intro h; simp [MMappedGPIOInCollection.SetState, h]
  · intro h; simp [MMappedGPIOInCollection.SetState, h]
  · simp only [runCalls, Call.run, BeginTransactionRecordSetStates]
    exact runSetState_recording o ws _ rfl

/-- Witness for C6: in a recording state the write is deferred; in a state
that is not recording it goes to the register; three writes after a begin
leave the registers alone. -/
theorem C6_mode_dispatch_witness :
    (⟨⟨0, 3⟩⟩ : MMappedGPIOInCollection).SetState ⟨1, 0⟩ true ⟨⟨[0], [8], true⟩, [[0, 0]], []⟩
      = .returned none ⟨⟨[8], [0], true⟩, [[0, 0]], []⟩ ∧
    (⟨⟨0, 3⟩⟩ : MMappedGPIOInCollection).SetState ⟨1, 0⟩ true ⟨⟨[0], [8], false⟩, [[0, 0]], []⟩
      = .returned none ⟨⟨[0], [8], false⟩, [[0, 8]], [⟨0, 1, 8⟩]⟩ ∧
    (runCalls ⟨1, 0⟩ (Call.BeginTransactionRecordSetStates ::
        ([(⟨⟨0, 3⟩⟩, true), (⟨⟨0, 4⟩⟩, false)] :
          List (MMappedGPIOInCollection × Bool)).map fun p => Call.SetState p.1 p.2)
        ⟨⟨[0], [8], false⟩, [[0, 0]], []⟩).world
      = ⟨⟨[8], [16], true⟩, [[0, 0]], []⟩ := by
  have h := C6_mode_dispatch ⟨1, 0⟩ ⟨⟨0, 3⟩⟩ true ⟨⟨[0], [8], true⟩, [[0, 0]], []⟩ []
  have h2 := C6_mode_dispatch ⟨1, 0⟩ ⟨⟨0, 3⟩⟩ true ⟨⟨[0], [8], false⟩, [[0, 0]], []⟩ []
  refine ⟨?_, ?_, by decide⟩
  · rw [h.1 rfl]; decide
  · rw [h2.2.1 rfl]; decide

/-- C7. GetFutureState is a pure read: for a handle whose chip id indexes both
staging arrays and whose bit id is in 0..31 it returns, in the unchanged
state, state_known = (the pin's bit is 1 in gpios_to_set or in gpios_to_clear),
state = (the pin's bit is 1 in gpios_to_set) and a nil error. -/
theorem C7_peek_is_pure_read (w : World) (gpio : MMappedGPIOInCollection)
    (hset : gpio.chipid < w.gpiocf.gpios_to_set.length)
    (hclear : gpio.chipid < w.gpiocf.gpios_to_clear.length)
    (hbit : gpio.gpioid < 32) :
    gpio.GetFutureState w = .returned
      ((w.gpiocf.gpios_to_set[gpio.chipid].testBit gpio.gpioid ||
          w.gpiocf.gpios_to_clear[gpio.chipid].testBit gpio.gpioid),
        w.gpiocf.gpios_to_set[gpio.chipid].testBit gpio.gpioid, none) w := by
  simp only [MMappedGPIOInCollection.GetFutureState, List.getElem?_eq_getElem hset,
    List.getElem?_eq_getElem hclear, and32_bit32_pos _ _ hbit]
  cases w.gpiocf.gpios_to_set[gpio.chipid].testBit gpio.gpioid <;> simp

/-- Witness for C7: pin (0, 4) is pending low in a state that also holds pin
(0, 3) pending high. -/
theorem C7_peek_is_pure_read_witness :
    (0 < [8].length ∧ 0 < [16].length ∧ 4 < 32) ∧
    (⟨⟨0, 4⟩⟩ : MMappedGPIOInCollection).GetFutureState ⟨⟨[8], [16], true⟩, [[0, 0]], []⟩
      = .returned (true, false, none) ⟨⟨[8], [16], true⟩, [[0, 0]], []⟩ :=
  ⟨by decide,
    (C7_peek_is_pure_read ⟨⟨[8], [16], true⟩, [[0, 0]], []⟩ ⟨⟨0, 4⟩⟩ (by decide) (by decide)
      (by decide)).trans (by decide)⟩

/-- The pending-state test of the code fails on a bit that is not set, for
every shift count. -/
theorem and32_bit32_not_pos (x b : Nat) (h : x.testBit b = false) :
    decide (and32 x (bit32 b) > 0) = false := by
  by_cases hb : b < 32
  · rw [and32_bit32_pos x b hb, h]
  · have h0 : and32 x (bit32 b) = 0 := by
      rw [bit32_eq_zero b (by omega)]
      simp [and32, u32]
    simp [h0]

/-- A pin whose bit is in neither mask is reported unknown. -/
theorem getFutureState_unknown (w : World) (gpio : MMappedGPIOInCollection)
    (hset : gpio.chipid < w.gpiocf.gpios_to_set.length)
    (hclear : gpio.chipid < w.gpiocf.gpios_to_clear.length)
    (hs : w.gpiocf.gpios_to_set[gpio.chipid].testBit gpio.gpioid = false)
    (hk : w.gpiocf.gpios_to_clear[gpio.chipid].testBit gpio.gpioid = false) :
    gpio.GetFutureState w = .returned (false, false, none) w := by
  simp [MMappedGPIOInCollection.GetFutureState, List.getElem?_eq_getElem hset,
    List.getElem?_eq_getElem hclear, and32_bit32_not_pos _ _ hs, and32_bit32_not_pos _ _ hk]

/-- A pin of a chip whose staged masks are zero is reported unknown. -/
theorem getFutureState_of_stagingZero (w : World) (gpio : MMappedGPIOInCollection)
    (hset : gpio.chipid < w.gpiocf.gpios_to_set.length)
    (hclear : gpio.chipid < w.gpiocf.gpios_to_clear.length)
    (hz : StagingZero w.gpiocf) :
    gpio.GetFutureState w = .returned (false, false, none) w := by
  apply getFutureState_unknown w gpio hset hclear
  · rw [hz.1 _ (List.getElem_mem hset)]; simp
  · rw [hz.2 _ (List.getElem_mem hclear)]; simp

/-- A run of immediate writes leaves the factory alone. -/
theorem runSetStateNow_gpiocf (o : RegisterOffsets)
    (ws : List (MMappedGPIOInCollection × Bool)) (w : World) :
    (runCalls o (ws.map fun p => Call.SetStateNow p.1 p.2) w).world.gpiocf = w.gpiocf := by
  induction ws generalizing w with
  | nil => rfl
  | cons p rest ih =>
    have hf := setStateNow_gpiocf o p.1 p.2 w
    simp only [List.map_cons, runCalls, Call.run]
    cases hrun : p.1.SetStateNow o p.2 w with
    | panicked w1 =>
      rw [hrun] at hf
      simpa [Outcome.discard, Outcome.world] using hf
    | returned v w1 =>
      rw [hrun] at hf
      simp only [Outcome.world] at hf
      simp only [Outcome.discard]
      exact (ih w1).trans hf

theorem stagingZero_fresh (regs : List (List Nat)) :
    StagingZero (NewMMapedGPIOCollectionFactory regs) := by
  constructor <;> intro x hx <;> simp [NewMMapedGPIOCollectionFactory] at hx <;> exact hx.2

/-- The commit of a well-shaped world leaves all-zero staging arrays of the
same lengths. -/
theorem endTransaction_stagingZero (o : RegisterOffsets) (w : World) (hw : w.Shaped o) :
    StagingZero (EndTransactionApplySetStates o w).world.gpiocf ∧
    (EndTransactionApplySetStates o w).world.gpiocf.gpios_to_set.length =
      w.gpiocf.gpios_to_set.length ∧
    (EndTransactionApplySetStates o w).world.gpiocf.gpios_to_clear.length =
      w.gpiocf.gpios_to_clear.length := by
  obtain ⟨w1, hinv, hret⟩ := endTransaction_shaped o w hw
  have hls := loopInv_set_length hinv
  have hlk := loopInv_clear_length hinv
  rw [hret]
  refine ⟨⟨?_, ?_⟩, hls, hlk⟩
  · apply all_zero_of_getElem?
    intro j hj
    have hj1 : j < w1.gpiocf.gpios_to_set.length := hj
    have hjw : j < w.gpiocf.gpios_to_set.length := by omega
    have hjr : j < w.memgpiochipreg32.length := by rw [← hw.1]; exact hjw
    show w1.gpiocf.gpios_to_set[j]? = some 0
    rw [hinv.set_eq j]
    simp [hjr, hjw]
  · apply all_zero_of_getElem?
    intro j hj
    have hj1 : j < w1.gpiocf.gpios_to_clear.length := hj
    have hjw : j < w.gpiocf.gpios_to_clear.length := by omega
    have hjr : j < w.memgpiochipreg32.length := by rw [← hw.2.1]; exact hjw
    show w1.gpiocf.gpios_to_clear[j]? = some 0
    rw [hinv.clear_eq j]
    simp [hjr, hjw]

/-- C8. A pin with no pending deferred write is reported unknown regardless of
immediate writes: when the pin's bit is in neither mask, GetFutureState
returns state_known = false, and it still does after any run of SetStateNow
calls on any pins, because those leave the factory (both staging arrays and
the recording flag) unchanged; this is the case for every pin of a freshly
created factory and for every pin right after EndTransactionApplySetStates. -/
theorem C8_unknown_without_pending_write (o : RegisterOffsets) (w : World)
    (gpio : MMappedGPIOInCollection) (ws : List (MMappedGPIOInCollection × Bool)) :
    (∀ (hset : gpio.chipid < w.gpiocf.gpios_to_set.length)
        (hclear : gpio.chipid < w.gpiocf.gpios_to_clear.length),
      w.gpiocf.gpios_to_set[gpio.chipid].testBit gpio.gpioid = false →
      w.gpiocf.gpios_to_clear[gpio.chipid].testBit gpio.gpioid = false →
      gpio.GetFutureState w = .returned (false, false, none) w ∧
      (runCalls o (ws.map fun p => Call.SetStateNow p.1 p.2) w).world.gpiocf = w.gpiocf ∧
      gpio.GetFutureState (runCalls o (ws.map fun p => Call.SetStateNow p.1 p.2) w).world
        = .returned (false, false, none)
            (runCalls o (ws.map fun p => Call.SetStateNow p.1 p.2) w).world) ∧
    (∀ (regs : List (List Nat)) (history : List RegWrite), gpio.chipid < regs.length →
      gpio.GetFutureState
          (runCalls o (ws.map fun p => Call.SetStateNow p.1 p.2)
            (World.fresh regs history)).world
        = .returned (false, false, none)
            (runCalls o (ws.map fun p => Call.SetStateNow p.1 p.2)
              (World.fresh regs history)).world) ∧
    (w.Shaped o → gpio.chipid < w.memgpiochipreg32.length →
      gpio.GetFutureState
          (runCalls o (ws.map fun p => Call.SetStateNow p.1 p.2)
            (EndTransactionApplySetStates o w).world).world
        = .returned (false, false, none)
            (runCalls o (ws.map fun p => Call.SetStateNow p.1 p.2)
              (EndTransactionApplySetStates o w).world).world) := by
  refine ⟨?_, ?_, ?_⟩
  · intro hset hclear hs hk
    have hf := runSetStateNow_gpiocf o ws w
    refine ⟨getFutureState_unknown w gpio hset hclear hs hk, hf, ?_⟩
    generalize (runCalls o (ws.map fun p => Call.SetStateNow p.1 p.2) w).world = w1 at hf
    have hset1 : gpio.chipid < w1.gpiocf.gpios_to_set.length := by rw [hf]; exact hset
    have hclear1 : gpio.chipid < w1.gpiocf.gpios_to_clear.length := by rw [hf]; exact hclear
    apply getFutureState_unknown w1 gpio hset1 hclear1
    · simpa only [hf] using hs
    · simpa only [hf] using hk
  · intro regs history hc
    have hf := runSetStateNow_gpiocf o ws (World.fresh regs history)
    generalize (runCalls o (ws.map fun p => Call.SetStateNow p.1 p.2)
      (World.fresh regs history)).world = w1 at hf
    have hz : StagingZero w1.gpiocf := by rw [hf]; exact stagingZero_fresh regs
    apply getFutureState_of_stagingZero w1 gpio _ _ hz
    · rw [hf]; simpa [World.fresh, NewMMapedGPIOCollectionFactory] using hc
    · rw [hf]; simpa [World.fresh, NewMMapedGPIOCollectionFactory] using hc
  · intro hw hc
    obtain ⟨hz0, hl1, hl2⟩ := endTransaction_stagingZero o w hw
    have hf := runSetStateNow_gpiocf o ws (EndTransactionApplySetStates o w).world
    generalize (runCalls o (ws.map fun p => Call.SetStateNow p.1 p.2)
      (EndTransactionApplySetStates o w).world).world = w1 at hf
    have hz : StagingZero w1.gpiocf := by rw [hf]; exact hz0
    apply getFutureState_of_stagingZero w1 gpio _ _ hz
    · rw [hf, hl1, hw.1]; exact hc
    · rw [hf, hl2, hw.2.1]; exact hc

/-- Witness for C8: pin (0, 3) has nothing pending while pin (0, 4) does; two
immediate writes, one of them on pin (0, 3), change nothing in the factory. -/
theorem C8_unknown_without_pending_write_witness :
    (⟨⟨0, 3⟩⟩ : MMappedGPIOInCollection).GetFutureState ⟨⟨[16], [0], false⟩, [[0, 0]], []⟩
      = .returned (false, false, none) ⟨⟨[16], [0], false⟩, [[0, 0]], []⟩ ∧
    (runCalls ⟨1, 0⟩ (([(⟨⟨0, 3⟩⟩, true), (⟨⟨0, 5⟩⟩, false)] :
        List (MMappedGPIOInCollection × Bool)).map fun p => Call.SetStateNow p.1 p.2)
      ⟨⟨[16], [0], false⟩, [[0, 0]], []⟩).world
      = ⟨⟨[16], [0], false⟩, [[32, 8]], [⟨0, 1, 8⟩, ⟨0, 0, 32⟩]⟩ ∧
    (⟨⟨0, 3⟩⟩ : MMappedGPIOInCollection).GetFutureState
        ⟨⟨[16], [0], false⟩, [[32, 8]], [⟨0, 1, 8⟩, ⟨0, 0, 32⟩]⟩
      = .returned (false, false, none)
        ⟨⟨[16], [0], false⟩, [[32, 8]], [⟨0, 1, 8⟩, ⟨0, 0, 32⟩]⟩ := by
  have h := (C8_unknown_without_pending_write ⟨1, 0⟩ ⟨⟨[16], [0], false⟩, [[0, 0]], []⟩
    ⟨⟨0, 3⟩⟩ [(⟨⟨0, 3⟩⟩, true), (⟨⟨0, 5⟩⟩, false)]).1 (by decide) (by decide)
    (by decide) (by decide)
  have hrun : (runCalls ⟨1, 0⟩ (([(⟨⟨0, 3⟩⟩, true), (⟨⟨0, 5⟩⟩, false)] :
        List (MMappedGPIOInCollection × Bool)).map fun p => Call.SetStateNow p.1 p.2)
      ⟨⟨[16], [0], false⟩, [[0, 0]], []⟩).world
      = ⟨⟨[16], [0], false⟩, [[32, 8]], [⟨0, 1, 8⟩, ⟨0, 0, 32⟩]⟩ := by decide
  refine ⟨h.1, hrun, ?_⟩
  rw [← hrun]
  exact h.2.2

theorem getD_of_all_zero (l : List Nat) (h : ∀ x ∈ l, x = 0) (i : Nat) : l.getD i 0 = 0 := by
  rw [List.getD_eq_getElem?_getD]
  cases hi : l[i]? with
  | none => rfl
  | some x => exact h x (List.getElem?_mem hi)

theorem map_zero_of_all_zero (l : List Nat) (h : ∀ x ∈ l, x = 0) (i : Nat) :
    (l[i]?).map (fun _ => 0) = l[i]? := by
  cases hi : l[i]? with
  | none => rfl
  | some x => simp [h x (List.getElem?_mem hi)]

/-- C9, as stated, fails: in a state that is not recording but holds a pending
bit (pin (0, 3) staged high by a direct SetFutureState), the commit stores that
bit to the set-data-out register and zeroes the mask, so neither the staging
arrays nor the register file are what they were. -/
theorem C9_commit_when_idle_counterexample :
    (⟨⟨[8], [0], false⟩, [[0, 0]], []⟩ : World).gpiocf.record_changes = false ∧
    (⟨⟨[8], [0], false⟩, [[0, 0]], []⟩ : World).Shaped ⟨1, 0⟩ ∧
    (⟨⟨0, 3⟩⟩ : MMappedGPIOInCollection).SetFutureState true ⟨⟨[0], [0], false⟩, [[0, 0]], []⟩
      = .returned none ⟨⟨[8], [0], false⟩, [[0, 0]], []⟩ ∧
    EndTransactionApplySetStates ⟨1, 0⟩ ⟨⟨[8], [0], false⟩, [[0, 0]], []⟩
      = .returned () ⟨⟨[0], [0], false⟩, [[0, 8]], [⟨0, 1, 8⟩, ⟨0, 0, 0⟩]⟩ ∧
    (EndTransactionApplySetStates ⟨1, 0⟩ ⟨⟨[8], [0], false⟩, [[0, 0]], []⟩).world.gpiocf
      ≠ (⟨⟨[8], [0], false⟩, [[0, 0]], []⟩ : World).gpiocf ∧
    (EndTransactionApplySetStates ⟨1, 0⟩
        ⟨⟨[8], [0], false⟩, [[0, 0]], []⟩).world.memgpiochipreg32
      ≠ (⟨⟨[8], [0], false⟩, [[0, 0]], []⟩ : World).memgpiochipreg32 := by
  decide

/-- C9, amended. When record_changes is false and every staging word is zero,
EndTransactionApplySetStates returns with the factory (both staging arrays and
the recording flag) unchanged; the only stores it makes are zero words to each
chip's set-data-out and clear-data-out registers. -/
theorem C9_commit_when_idle_amended (o : RegisterOffsets) (w : World) (hw : w.Shaped o)
    (hflag : w.gpiocf.record_changes = false) (hz : StagingZero w.gpiocf) :
    ∃ w1, EndTransactionApplySetStates o w = .returned () w1 ∧
      w1.gpiocf = w.gpiocf ∧
      w1.writes = w.writes ++ (List.range w.memgpiochipreg32.length).flatMap (fun i =>
        [(⟨i, o.intgpio_setdataout_o32_, 0⟩ : RegWrite),
          ⟨i, o.intgpio_cleardataout_o32_, 0⟩]) ∧
      ∀ (i : Nat) (row : List Nat), w.memgpiochipreg32[i]? = some row →
        w1.memgpiochipreg32[i]? = some (flushRow o row 0 0) := by
  obtain ⟨w1, hinv, hret⟩ := endTransaction_shaped o w hw
  refine ⟨_, hret, ?_, ?_, ?_⟩
  · have hs : w1.gpiocf.gpios_to_set = w.gpiocf.gpios_to_set := by
      apply List.ext_getElem?
      intro j
      rw [hinv.set_eq j, map_zero_of_all_zero _ hz.1]
      simp
    have hk : w1.gpiocf.gpios_to_clear = w.gpiocf.gpios_to_clear := by
      apply List.ext_getElem?
      intro j
      rw [hinv.clear_eq j, map_zero_of_all_zero _ hz.2]
      simp
    have hf := hinv.flag_eq
    cases hg : w.gpiocf with
    | mk s k r =>
      rw [hg] at hs hk hflag
      simp only at hs hk hflag
      simp [hs, hk, hflag]
  · have hfun : (fun i => [(⟨i, o.intgpio_setdataout_o32_, w.gpiocf.gpios_to_set.getD i 0⟩ :
          RegWrite), ⟨i, o.intgpio_cleardataout_o32_, w.gpiocf.gpios_to_clear.getD i 0⟩])
        = fun i => [(⟨i, o.intgpio_setdataout_o32_, 0⟩ : RegWrite),
          ⟨i, o.intgpio_cleardataout_o32_, 0⟩] := by
      funext i
      rw [getD_of_all_zero _ hz.1, getD_of_all_zero _ hz.2]
    show w1.writes = _
    rw [hinv.writes_eq, hfun]
  · intro i row hrow
    have hi : i < w.memgpiochipreg32.length := (List.getElem?_eq_some.1 hrow).1
    show w1.memgpiochipreg32[i]? = _
    rw [hinv.regs_eq i, hrow, getD_of_all_zero _ hz.1, getD_of_all_zero _ hz.2]
    simp [hi]

/-- Witness for the amended C9: an idle two-chip state with nothing staged. -/
theorem C9_commit_when_idle_amended_witness :
    ((⟨⟨[0, 0], [0, 0], false⟩, [[3, 4], [5, 6]], []⟩ : World).Shaped ⟨1, 0⟩ ∧
      (⟨⟨[0, 0], [0, 0], false⟩, [[3, 4], [5, 6]], []⟩ : World).gpiocf.record_changes = false ∧
      StagingZero (⟨⟨[0, 0], [0, 0], false⟩, [[3, 4], [5, 6]], []⟩ : World).gpiocf) ∧
    ∃ w1, EndTransactionApplySetStates ⟨1, 0⟩ ⟨⟨[0, 0], [0, 0], false⟩, [[3, 4], [5, 6]], []⟩
        = .returned () w1 ∧
      w1.gpiocf = ⟨[0, 0], [0, 0], false⟩ ∧
      w1.writes = [] ++ (List.range 2).flatMap (fun i =>
        [(⟨i, 1, 0⟩ : RegWrite), ⟨i, 0, 0⟩]) ∧
      ∀ (i : Nat) (row : List Nat), [[3, 4], [5, 6]][i]? = some row →
        w1.memgpiochipreg32[i]? = some (flushRow ⟨1, 0⟩ row 0 0) :=
  ⟨by decide,
    C9_commit_when_idle_amended ⟨1, 0⟩ ⟨⟨[0, 0], [0, 0], false⟩, [[3, 4], [5, 6]], []⟩
      (by decide) (by decide) (by decide)⟩

/-! ## I2C transfers -/

/-- A wrapped driver error carries the invalid-address text only if the driver
text itself is "invalid address". -/
theorem wrapped_eq_invalid {t : String}
    (h : "sysfs-i2c: " ++ t = "sysfs-i2c: invalid address") : t = "invalid address" := by
  have hd := congrArg String.data h
  simp only [String.data_append] at hd
  exact String.ext (List.append_cancel_left hd)

/-- The early return of `Tx` on an address outside the 10-bit range. -/
theorem tx_invalid (k : Sys) (i2c : Option SysfsI2C) (addr : Nat) (w r : List Nat)
    (h : addr ≥ 0x400) :
    SysfsI2C.Tx k i2c addr w r = ⟨.returned (some "sysfs-i2c: invalid address"), i2c, []⟩ := by
  simp [SysfsI2C.Tx, h]

/-- The early return of `Tx` when there is nothing to transfer. -/
theorem tx_empty (k : Sys) (i2c : Option SysfsI2C) (addr : Nat) (w r : List Nat)
    (h : addr < 0x400) (hw : w.length = 0) (hr : r.length = 0) :
    SysfsI2C.Tx k i2c addr w r = ⟨.returned none, i2c, []⟩ := by
  have h1 : ¬ addr ≥ 0x400 := by omega
  simp only [SysfsI2C.Tx, h1, if_false, hw, hr, and_self, if_true]

/-- A transfer on an open, unlocked channel whose ioctl reports status 0. -/
theorem tx_driver_ok (k : Sys) (ch : SysfsI2C) (addr : Nat) (w r : List Nat)
    (h : addr < 0x400) (hmu : ch.mu = false)
    (hok : k.Syscall (k.Fd ch.fd) ioctlRdwr
      ⟨SysfsI2C.Tx.msgs addr w r, (SysfsI2C.Tx.msgs addr w r).length % 2 ^ 32⟩ = 0) :
    (SysfsI2C.Tx k (some ch) addr w r).ended = .returned none := by
  have h1 : ¬ addr ≥ 0x400 := by omega
  simp only [SysfsI2C.Tx, h1, if_false]
  split
  · rfl
  · simp only [hmu, Bool.false_eq_true, if_false, ioctl, hok]
    simp

/-- With a valid address `Tx` never ends in the invalid-address error. -/
theorem tx_valid_not_invalid (k : Sys) (i2c : Option SysfsI2C) (addr : Nat) (w r : List Nat)
    (htext : ∀ e, k.ErrnoText e ≠ "invalid address") (h : addr < 0x400) :
    (SysfsI2C.Tx k i2c addr w r).ended ≠ .returned (some "sysfs-i2c: invalid address") := by
  have h1 : ¬ addr ≥ 0x400 := by omega
  simp only [SysfsI2C.Tx, h1, if_false]
  split
  · simp
  · cases i2c with
    | none => simp
    | some ch =>
      simp only
      split
      · simp
      · simp only [ioctl]
        split
        · intro hc
          simp only [Ended.returned.injEq, Option.some.injEq] at hc
          exact htext _ (wrapped_eq_invalid hc)
        · simp

/-- C10. Address validation in Tx: it returns the error "sysfs-i2c: invalid
address" if and only if addr >= 0x400, and then without any lock or ioctl
event and with the channel untouched; addr = 0x400 fails so, addr = 0x3FF
passes validation, returns nil when both buffers are empty and returns nil on
an open, unlocked channel whenever the ioctl reports status 0. The driver's
error texts are assumed to differ from "invalid address". -/
theorem C10_tx_address_validation (k : Sys) (i2c : Option SysfsI2C) (addr : Nat)
    (w r : List Nat) (htext : ∀ e, k.ErrnoText e ≠ "invalid address") :
    ((SysfsI2C.Tx k i2c addr w r).ended = .returned (some "sysfs-i2c: invalid address")
      ↔ addr ≥ 0x400) ∧
    (addr ≥ 0x400 → SysfsI2C.Tx k i2c addr w r
      = ⟨.returned (some "sysfs-i2c: invalid address"), i2c, []⟩) ∧
    SysfsI2C.Tx k i2c 0x400 w r
      = ⟨.returned (some "sysfs-i2c: invalid address"), i2c, []⟩ ∧
    (SysfsI2C.Tx k i2c 0x3FF w r).ended ≠ .returned (some "sysfs-i2c: invalid address") ∧
    (w.length = 0 ∧ r.length = 0 → SysfsI2C.Tx k i2c 0x3FF w r = ⟨.returned none, i2c, []⟩) ∧
    (∀ ch, i2c = some ch → ch.mu = false →
      k.Syscall (k.Fd ch.fd) ioctlRdwr
        ⟨SysfsI2C.Tx.msgs 0x3FF w r, (SysfsI2C.Tx.msgs 0x3FF w r).length % 2 ^ 32⟩ = 0 →
      (SysfsI2C.Tx k i2c 0x3FF w r).ended = .returned none) := by
  refine ⟨⟨?_, ?_⟩, tx_invalid k i2c addr w r, tx_invalid k i2c _ w r (by decide),
    tx_valid_not_invalid k i2c _ w r htext (by decide), ?_, ?_⟩
  · intro h
    by_contra hlt
    exact tx_valid_not_invalid k i2c addr w r htext (by omega) h
  · intro h
    rw [tx_invalid k i2c addr w r h]
  · intro h
    exact tx_empty k i2c _ w r (by decide) h.1 h.2
  · intro ch hch hmu hok
    subst hch
    exact tx_driver_ok k ch _ w r (by decide) hmu hok

/-- Witness for C10: on bus 1 with a driver that reports success, the
boundary address 0x400 is refused without an ioctl and 0x3FF transfers a
one-byte write and a four-byte read. -/
theorem C10_tx_address_validation_witness :
    (∀ e, (Sys.reporting 0).ErrnoText e ≠ "invalid address") ∧
    SysfsI2C.Tx (Sys.reporting 0) (some ⟨1, some 3, false⟩) 0x400 [0x10] [0, 0, 0, 0]
      = ⟨.returned (some "sysfs-i2c: invalid address"), some ⟨1, some 3, false⟩, []⟩ ∧
    (SysfsI2C.Tx (Sys.reporting 0) (some ⟨1, some 3, false⟩) 0x3FF [0x10] [0, 0, 0, 0]).ended
      = .returned none :=
  ⟨fun _ => (by decide : "input/output error" ≠ "invalid address"),
    (C10_tx_address_validation (Sys.reporting 0) (some ⟨1, some 3, false⟩) 0x3FF [0x10]
      [0, 0, 0, 0]
      (fun _ => (by decide : "input/output error" ≠ "invalid address"))).2.2.1,
    (C10_tx_address_validation (Sys.reporting 0) (some ⟨1, some 3, false⟩) 0x3FF [0x10]
      [0, 0, 0, 0]
      (fun _ => (by decide : "input/output error" ≠ "invalid address"))).2.2.2.2.2 ⟨1, some 3, false⟩ rfl rfl rfl⟩
/-- The message array of `Tx` in closed form: the write descriptor when `w` is
not empty, followed by the read descriptor when `r` is not empty. -/
theorem tx_msgs_eq (addr : Nat) (w r : List Nat) :
    SysfsI2C.Tx.msgs addr w r =
      (if w.length ≠ 0 then [(⟨addr, 0, w.length % 2 ^ 16, w⟩ : i2cMsg)] else []) ++
      (if r.length ≠ 0 then [(⟨addr, flagRD, r.length % 2 ^ 16, r⟩ : i2cMsg)] else []) := by
  unfold SysfsI2C.Tx.msgs
  by_cases hw : w.length = 0 <;> by_cases hr : r.length = 0 <;> simp [hw, hr]

/-- A transfer with a valid address and something to move, on an open channel
whose mutex is free: one ioctl between a lock and an unlock. -/
theorem tx_run_eq (k : Sys) (ch : SysfsI2C) (addr : Nat) (w r : List Nat)
    (h : addr < 0x400) (hne : ¬ (w.length = 0 ∧ r.length = 0)) (hmu : ch.mu = false) :
    SysfsI2C.Tx k (some ch) addr w r =
      ⟨.returned
          (match ioctl k (k.Fd ch.fd) ioctlRdwr
              ⟨SysfsI2C.Tx.msgs addr w r, (SysfsI2C.Tx.msgs addr w r).length % 2 ^ 32⟩ with
            | some errno => some ("sysfs-i2c: " ++ k.ErrnoText errno)
            | none => none),
        some ch,
        [.lock, .ioctl true (k.Fd ch.fd) ioctlRdwr
            ⟨SysfsI2C.Tx.msgs addr w r, (SysfsI2C.Tx.msgs addr w r).length % 2 ^ 32⟩,
          .unlock]⟩ := by
  have h1 : ¬ addr ≥ 0x400 := by omega
  have hch : ({ ch with mu := false } : SysfsI2C) = ch := by
    cases ch; simp_all
  simp only [SysfsI2C.Tx, h1, if_false, hne, hmu, Bool.false_eq_true, hch]

/-- C11. For every addr < 0x400, Tx with both buffers empty returns nil at the
early return: no descriptor is built, and the run has no lock, ioctl or unlock
event and leaves the channel as it was, whatever the receiver and the state of
its mutex. -/
theorem C11_tx_empty_is_noop (k : Sys) (i2c : Option SysfsI2C) (addr : Nat) (w r : List Nat)
    (haddr : addr < 0x400) (hw : w.length = 0) (hr : r.length = 0) :
    SysfsI2C.Tx k i2c addr w r = ⟨.returned none, i2c, []⟩ ∧
    (SysfsI2C.Tx k i2c addr w r).trace = [] ∧
    SysfsI2C.Tx.msgs addr w r = [] := by
  have h := tx_empty k i2c addr w r haddr hw hr
  refine ⟨h, by rw [h], ?_⟩
  rw [tx_msgs_eq]
  simp [hw, hr]

/-- Witness for C11: an empty transfer on a channel whose driver would fail
every ioctl still returns nil. -/
theorem C11_tx_empty_is_noop_witness :
    ((0x3FF : Nat) < 0x400 ∧ ([] : List Nat).length = 0 ∧ ([] : List Nat).length = 0) ∧
    SysfsI2C.Tx (Sys.reporting 5) (some ⟨1, some 3, false⟩) 0x3FF [] []
      = ⟨.returned none, some ⟨1, some 3, false⟩, []⟩ ∧
    (SysfsI2C.Tx (Sys.reporting 5) (some ⟨1, some 3, false⟩) 0x3FF [] []).trace = [] ∧
    SysfsI2C.Tx.msgs 0x3FF [] [] = [] :=
  ⟨by decide,
    C11_tx_empty_is_noop (Sys.reporting 5) (some ⟨1, some 3, false⟩) 0x3FF [] []
      (by decide) rfl rfl⟩

/-- C12. Descriptor layout in Tx: for addr < 0x400 and buffers not both empty,
on an open channel with a free mutex, the one ioctl of the run is handed the
write descriptor (flags 0, buffer w) exactly when w is not empty, at index 0,
followed by the read descriptor (flags flagRD, buffer r) exactly when r is not
empty, so at index 1 after a write descriptor and at index 0 otherwise; nmsgs
is the number of descriptors and every descriptor carries addr. -/
theorem C12_tx_descriptor_layout (k : Sys) (ch : SysfsI2C) (addr : Nat) (w r : List Nat)
    (haddr : addr < 0x400) (hne : ¬ (w.length = 0 ∧ r.length = 0)) (hmu : ch.mu = false) :
    (SysfsI2C.Tx k (some ch) addr w r).trace =
      [.lock,
        .ioctl true (k.Fd ch.fd) ioctlRdwr
          ⟨(if w.length ≠ 0 then [(⟨addr, 0, w.length % 2 ^ 16, w⟩ : i2cMsg)] else []) ++
            (if r.length ≠ 0 then [(⟨addr, flagRD, r.length % 2 ^ 16, r⟩ : i2cMsg)] else []),
           (if w.length ≠ 0 then 1 else 0) + (if r.length ≠ 0 then 1 else 0)⟩,
        .unlock] ∧
    (SysfsI2C.Tx.msgs addr w r).length =
      (if w.length ≠ 0 then 1 else 0) + (if r.length ≠ 0 then 1 else 0) ∧
    (w.length ≠ 0 →
      (SysfsI2C.Tx.msgs addr w r)[0]? = some ⟨addr, 0, w.length % 2 ^ 16, w⟩) ∧
    (w.length = 0 → ∀ m ∈ SysfsI2C.Tx.msgs addr w r, m.flags = flagRD) ∧
    (r.length ≠ 0 →
      (SysfsI2C.Tx.msgs addr w r)[if w.length ≠ 0 then 1 else 0]?
        = some ⟨addr, flagRD, r.length % 2 ^ 16, r⟩) ∧
    (r.length = 0 → ∀ m ∈ SysfsI2C.Tx.msgs addr w r, m.flags = 0) ∧
    (∀ m ∈ SysfsI2C.Tx.msgs addr w r, m.addr = addr) := by
  have hlen : (SysfsI2C.Tx.msgs addr w r).length =
      (if w.length ≠ 0 then 1 else 0) + (if r.length ≠ 0 then 1 else 0) := by
    rw [tx_msgs_eq]
    by_cases hw : w.length = 0 <;> by_cases hr : r.length = 0 <;> simp [hw, hr]
  have hn : ((if w.length ≠ 0 then 1 else 0) + (if r.length ≠ 0 then 1 else 0)) % 2 ^ 32 =
      (if w.length ≠ 0 then 1 else 0) + (if r.length ≠ 0 then 1 else 0) := by
    by_cases hw : w.length = 0 <;> by_cases hr : r.length = 0 <;> simp [hw, hr]
  refine ⟨?_, hlen, ?_, ?_, ?_, ?_, ?_⟩
  · rw [tx_run_eq k ch addr w r haddr hne hmu]
    simp only [hlen, hn]
    rw [tx_msgs_eq]
  · intro hw
    rw [tx_msgs_eq]
    simp [hw]
  · intro hw m hm
    rw [tx_msgs_eq] at hm
    by_cases hr : r.length = 0
    · simp [hw, hr] at hm
    · simp [hw, hr] at hm
      rw [hm]
  · intro hr
    rw [tx_msgs_eq]
    by_cases hw : w.length = 0 <;> simp [hw, hr]
  · intro hr m hm
    rw [tx_msgs_eq] at hm
    by_cases hw : w.length = 0
    · simp [hw, hr] at hm
    · simp [hw, hr] at hm
      rw [hm]
  · intro m hm
    rw [tx_msgs_eq] at hm
    by_cases hw : w.length = 0 <;> by_cases hr : r.length = 0 <;> simp [hw, hr] at hm
    · rw [hm]
    · rw [hm]
    · rcases hm with hm | hm <;> rw [hm]

/-- Witness for C12: a one-byte write and a four-byte read to address 0x48
give the descriptors write(len 1), read(len 4) in that order. -/
theorem C12_tx_descriptor_layout_witness :
    ((0x48 : Nat) < 0x400 ∧ ¬ ([0x10].length = 0 ∧ [0, 0, 0, 0].length = 0) ∧
      (⟨1, some 3, false⟩ : SysfsI2C).mu = false) ∧
    (SysfsI2C.Tx (Sys.reporting 0) (some ⟨1, some 3, false⟩) 0x48 [0x10] [0, 0, 0, 0]).trace =
      [.lock,
        .ioctl true 3 0x707
          ⟨[⟨0x48, 0, 1, [0x10]⟩, ⟨0x48, 1, 4, [0, 0, 0, 0]⟩], 2⟩,
        .unlock] :=
  ⟨by decide,
    (C12_tx_descriptor_layout (Sys.reporting 0) ⟨1, some 3, false⟩ 0x48 [0x10] [0, 0, 0, 0]
      (by decide) (by decide) rfl).1.trans (by decide)⟩

/-- The length field is the buffer size for buffers of at most 65535 bytes. -/
theorem tx_msgs_length_small (addr : Nat) (w r : List Nat)
    (hw : w.length < 2 ^ 16) (hr : r.length < 2 ^ 16) :
    SysfsI2C.Tx.msgs addr w r =
      (if w.length ≠ 0 then [(⟨addr, 0, w.length, w⟩ : i2cMsg)] else []) ++
      (if r.length ≠ 0 then [(⟨addr, flagRD, r.length, r⟩ : i2cMsg)] else []) := by
  rw [tx_msgs_eq, Nat.mod_eq_of_lt hw, Nat.mod_eq_of_lt hr]

/-- A buffer of exactly 65536 bytes gets a descriptor of length 0, and `Write`
of it on a channel whose driver reports success returns 65536. -/
theorem tx_wraps_at_65536 (k : Sys) (ch : SysfsI2C) (addr : Nat) (b : List Nat)
    (haddr : addr < 0x400) (hb : b.length = 65536) (hmu : ch.mu = false)
    (hok : ∀ f op arg, k.Syscall f op arg = 0) :
    SysfsI2C.Tx.msgs addr b [] = [⟨addr, 0, 0, b⟩] ∧
    SysfsI2C.Tx.msgs addr [] b = [⟨addr, flagRD, 0, b⟩] ∧
    (SysfsI2C.Write k (some ch) addr b).ended = .returned (65536, none) ∧
    (SysfsI2C.Write k (some ch) addr b).trace =
      [.lock, .ioctl true (k.Fd ch.fd) ioctlRdwr ⟨[⟨addr, 0, 0, b⟩], 1⟩, .unlock] := by
  have hm : SysfsI2C.Tx.msgs addr b [] = [⟨addr, 0, 0, b⟩] := by
    rw [tx_msgs_eq]; simp [hb]
  have hrun := tx_run_eq k ch addr b [] haddr (by simp [hb]) hmu
  refine ⟨hm, ?_, ?_, ?_⟩
  · rw [tx_msgs_eq]; simp [hb]
  · simp only [SysfsI2C.Write, hrun, hm]
    simp [ioctl, hok, hb]
  · simp only [SysfsI2C.Write, hrun, hm]
    simp [ioctl, hok]

/-- C13 fails on the code at 65536 bytes: the narrowing `uint16(len(w))` wraps
to 0, so the write descriptor (and likewise the read descriptor) of a
65536-byte buffer carries length 0, while `Write` of that buffer, when the
driver reports success, still returns 65536 as the number of bytes written. -/
theorem C13_length_field_wraps :
    (List.replicate 65536 0).length = 65536 ∧
    SysfsI2C.Tx.msgs 0x48 (List.replicate 65536 0) [] =
      [⟨0x48, 0, 0, List.replicate 65536 0⟩] ∧
    SysfsI2C.Tx.msgs 0x48 [] (List.replicate 65536 0) =
      [⟨0x48, flagRD, 0, List.replicate 65536 0⟩] ∧
    (SysfsI2C.Write (Sys.reporting 0) (some ⟨1, some 3, false⟩) 0x48
      (List.replicate 65536 0)).ended = .returned (65536, none) ∧
    (SysfsI2C.Write (Sys.reporting 0) (some ⟨1, some 3, false⟩) 0x48
      (List.replicate 65536 0)).trace =
        [.lock, .ioctl true ((Sys.reporting 0).Fd (some 3)) ioctlRdwr
          ⟨[⟨0x48, 0, 0, List.replicate 65536 0⟩], 1⟩, .unlock] :=
  ⟨List.length_replicate 65536 0,
    tx_wraps_at_65536 (Sys.reporting 0) ⟨1, some 3, false⟩ 0x48 (List.replicate 65536 0)
      (by decide) (List.length_replicate 65536 0) rfl (fun _ _ _ => rfl)⟩

/-- C14. Driver result propagation in Tx: for addr < 0x400 and buffers not both
empty, on an open channel with a free mutex, the run consists of a lock, one
ioctl with operation code ioctlRdwr (0x707) and an unlock; Tx returns nil
exactly when that call reports status 0, and otherwise the error whose text
is "sysfs-i2c: " followed by the text of the driver's errno; there is no
second ioctl. -/
theorem C14_tx_driver_result (k : Sys) (ch : SysfsI2C) (addr : Nat) (w r : List Nat)
    (haddr : addr < 0x400) (hne : ¬ (w.length = 0 ∧ r.length = 0)) (hmu : ch.mu = false) :
    (SysfsI2C.Tx k (some ch) addr w r).trace =
      [.lock,
        .ioctl true (k.Fd ch.fd) ioctlRdwr
          ⟨SysfsI2C.Tx.msgs addr w r, (SysfsI2C.Tx.msgs addr w r).length % 2 ^ 32⟩,
        .unlock] ∧
    ioctlRdwr = 0x707 ∧
    ((SysfsI2C.Tx k (some ch) addr w r).ended = .returned none ↔
      k.Syscall (k.Fd ch.fd) ioctlRdwr
        ⟨SysfsI2C.Tx.msgs addr w r, (SysfsI2C.Tx.msgs addr w r).length % 2 ^ 32⟩ = 0) ∧
    (k.Syscall (k.Fd ch.fd) ioctlRdwr
        ⟨SysfsI2C.Tx.msgs addr w r, (SysfsI2C.Tx.msgs addr w r).length % 2 ^ 32⟩ ≠ 0 →
      (SysfsI2C.Tx k (some ch) addr w r).ended = .returned (some ("sysfs-i2c: " ++
        k.ErrnoText (k.Syscall (k.Fd ch.fd) ioctlRdwr
          ⟨SysfsI2C.Tx.msgs addr w r, (SysfsI2C.Tx.msgs addr w r).length % 2 ^ 32⟩)))) := by
  rw [tx_run_eq k ch addr w r haddr hne hmu]
  refine ⟨rfl, rfl, ?_, ?_⟩
  · simp only [ioctl]
    generalize k.Syscall (k.Fd ch.fd) ioctlRdwr
      ⟨SysfsI2C.Tx.msgs addr w r, (SysfsI2C.Tx.msgs addr w r).length % 2 ^ 32⟩ = e
    by_cases h0 : e = 0 <;> simp [h0]
  · intro h0
    simp only [ioctl, h0, ne_eq, not_false_eq_true, if_true]

/-- Witness for C14: a driver that reports errno 5 makes the transfer fail with
the wrapped text after a single ioctl. -/
theorem C14_tx_driver_result_witness :
    ((0x48 : Nat) < 0x400 ∧ ¬ ([0x10].length = 0 ∧ ([] : List Nat).length = 0) ∧
      (⟨1, some 3, false⟩ : SysfsI2C).mu = false) ∧
    (SysfsI2C.Tx (Sys.reporting 5) (some ⟨1, some 3, false⟩) 0x48 [0x10] []).trace =
      [.lock, .ioctl true 3 0x707 ⟨[⟨0x48, 0, 1, [0x10]⟩], 1⟩, .unlock] ∧
    (SysfsI2C.Tx (Sys.reporting 5) (some ⟨1, some 3, false⟩) 0x48 [0x10] []).ended =
      .returned (some "sysfs-i2c: input/output error") :=
  ⟨by decide,
    (C14_tx_driver_result (Sys.reporting 5) ⟨1, some 3, false⟩ 0x48 [0x10] []
      (by decide) (by decide) rfl).1.trans (by decide),
    ((C14_tx_driver_result (Sys.reporting 5) ⟨1, some 3, false⟩ 0x48 [0x10] []
      (by decide) (by decide) rfl).2.2.2 (by decide)).trans (by decide)⟩

/-- C15. Write is Tx without a read: the run of Write(addr, b) has the events
and the channel state of Tx(addr, b, nil); when that Tx returns nil Write
returns (len(b), nil), when it returns an error e Write returns (0, e), and
Write ends as Tx does when Tx does not return. Write of an empty b with
addr < 0x400 returns (0, nil) with no event on the bus. -/
theorem C15_write_is_tx (k : Sys) (i2c : Option SysfsI2C) (addr : Nat) (b : List Nat) :
    (SysfsI2C.Write k i2c addr b).trace = (SysfsI2C.Tx k i2c addr b []).trace ∧
    (SysfsI2C.Write k i2c addr b).i2c = (SysfsI2C.Tx k i2c addr b []).i2c ∧
    ((SysfsI2C.Tx k i2c addr b []).ended = .returned none →
      (SysfsI2C.Write k i2c addr b).ended = .returned (b.length, none)) ∧
    (∀ e, (SysfsI2C.Tx k i2c addr b []).ended = .returned (some e) →
      (SysfsI2C.Write k i2c addr b).ended = .returned (0, some e)) ∧
    ((SysfsI2C.Tx k i2c addr b []).ended = .panicked →
      (SysfsI2C.Write k i2c addr b).ended = .panicked) ∧
    ((SysfsI2C.Tx k i2c addr b []).ended = .blocked →
      (SysfsI2C.Write k i2c addr b).ended = .blocked) ∧
    (addr < 0x400 → b.length = 0 →
      SysfsI2C.Write k i2c addr b = ⟨.returned (0, none), i2c, []⟩) := by
  refine ⟨?_, ?_, ?_, ?_, ?_, ?_, ?_⟩
  · unfold SysfsI2C.Write
    simp only
    split <;> rfl
  · unfold SysfsI2C.Write
    simp only
    split <;> rfl
  · intro h
    simp only [SysfsI2C.Write, h]
  · intro e h
    simp only [SysfsI2C.Write, h]
  · intro h
    simp only [SysfsI2C.Write, h]
  · intro h
    simp only [SysfsI2C.Write, h]
  · intro haddr hb
    have h := tx_empty k i2c addr b [] haddr hb rfl
    simp only [SysfsI2C.Write, h, hb]

/-- Witness for C15: a two-byte write on a channel whose driver reports success
returns (2, nil) after the one ioctl of the transfer; with a failing driver it
returns 0 and the wrapped error. -/
theorem C15_write_is_tx_witness :
    (SysfsI2C.Tx (Sys.reporting 0) (some ⟨1, some 3, false⟩) 0x48 [1, 2] []).ended
      = .returned none ∧
    (SysfsI2C.Write (Sys.reporting 0) (some ⟨1, some 3, false⟩) 0x48 [1, 2]).ended
      = .returned (2, none) ∧
    (SysfsI2C.Write (Sys.reporting 0) (some ⟨1, some 3, false⟩) 0x48 [1, 2]).trace
      = [.lock, .ioctl true 3 0x707 ⟨[⟨0x48, 0, 2, [1, 2]⟩], 1⟩, .unlock] ∧
    (SysfsI2C.Write (Sys.reporting 5) (some ⟨1, some 3, false⟩) 0x48 [1, 2]).ended
      = .returned (0, some "sysfs-i2c: input/output error") :=
  ⟨by decide,
    (C15_write_is_tx (Sys.reporting 0) (some ⟨1, some 3, false⟩) 0x48 [1, 2]).2.2.1
      (by decide),
    (C15_write_is_tx (Sys.reporting 0) (some ⟨1, some 3, false⟩) 0x48 [1, 2]).1.trans
      (by decide),
    (C15_write_is_tx (Sys.reporting 5) (some ⟨1, some 3, false⟩) 0x48 [1, 2]).2.2.2.1 _
      (by decide)⟩

/-- C16. Close fails if the channel was never opened: a nil channel gives the
error "i2c == nil" and a channel with a nil file gives "i2c.fd == nil", both
with no lock and no close event; a channel with a file and a free mutex locks,
closes the file, returns exactly the result of that close and unlocks. -/
theorem C16_close (k : Sys) :
    SysfsI2C.Close k none = ⟨.returned (some "i2c == nil"), none, []⟩ ∧
    (∀ ch : SysfsI2C, ch.fd = none →
      SysfsI2C.Close k (some ch) = ⟨.returned (some "i2c.fd == nil"), some ch, []⟩) ∧
    (∀ (ch : SysfsI2C) (file : Nat), ch.fd = some file → ch.mu = false →
      SysfsI2C.Close k (some ch) =
        ⟨.returned (k.Close file), some ch, [.lock, .close true file, .unlock]⟩) := by
  refine ⟨rfl, ?_, ?_⟩
  · intro ch hfd
    simp only [SysfsI2C.Close, hfd]
  · intro ch file hfd hmu
    obtain ⟨bus, fd, mu⟩ := ch
    simp only at hfd hmu
    subst hfd hmu
    rfl

/-- Witness for C16: closing never-opened channels fails without touching the
lock, and closing an open one goes through lock, close, unlock. -/
theorem C16_close_witness :
    SysfsI2C.Close (Sys.reporting 0) (some ⟨1, none, true⟩)
      = ⟨.returned (some "i2c.fd == nil"), some ⟨1, none, true⟩, []⟩ ∧
    SysfsI2C.Close (Sys.reporting 0) (some ⟨1, some 3, false⟩)
      = ⟨.returned none, some ⟨1, some 3, false⟩, [.lock, .close true 3, .unlock]⟩ :=
  ⟨(C16_close (Sys.reporting 0)).2.1 ⟨1, none, true⟩ rfl,
    (C16_close (Sys.reporting 0)).2.2 ⟨1, some 3, false⟩ 3 rfl rfl⟩

/-- `Tx` hands the channel back in the state it found it, the mutex included,
however it ends. -/
theorem tx_channel_unchanged (k : Sys) (i2c : Option SysfsI2C) (addr : Nat) (w r : List Nat) :
    (SysfsI2C.Tx k i2c addr w r).i2c = i2c := by
  unfold SysfsI2C.Tx
  split
  · rfl
  · split
    · rfl
    · cases i2c with
      | none => rfl
      | some ch =>
        simp only
        split
        · rfl
        · next hmu =>
          have hch : ({ ch with mu := false } : SysfsI2C) = ch := by
            cases ch; simp_all
          simp only [hch]

/-- The events of a run of `Tx`: none, or a lock, one ioctl issued with the
mutex held, and an unlock. -/
theorem tx_trace_cases (k : Sys) (i2c : Option SysfsI2C) (addr : Nat) (w r : List Nat) :
    (SysfsI2C.Tx k i2c addr w r).trace = [] ∨
    ∃ f arg, (SysfsI2C.Tx k i2c addr w r).trace = [.lock, .ioctl true f ioctlRdwr arg, .unlock] := by
  unfold SysfsI2C.Tx
  split
  · exact Or.inl rfl
  · split
    · exact Or.inl rfl
    · cases i2c with
      | none => exact Or.inl rfl
      | some ch =>
        simp only
        split
        · exact Or.inl rfl
        · exact Or.inr ⟨_, _, rfl⟩

/-- C17. Lock discipline of Tx on the explicit lock state: from a channel whose
mutex is free Tx returns with the mutex free; however Tx ends, the channel and
its mutex are as they were on entry, and the events are either none or a
lock, one ioctl and an unlock in that order; every ioctl is issued with the
mutex held; and on the two early-return paths (addr >= 0x400, both buffers
empty) there is no lock event at all. -/
theorem C17_tx_lock_discipline (k : Sys) (i2c : Option SysfsI2C) (addr : Nat)
    (w r : List Nat) :
    (∀ ch : SysfsI2C, i2c = some ch → ch.mu = false →
      ∃ e ch1, (SysfsI2C.Tx k i2c addr w r).ended = .returned e ∧
        (SysfsI2C.Tx k i2c addr w r).i2c = some ch1 ∧ ch1.mu = false) ∧
    (SysfsI2C.Tx k i2c addr w r).i2c = i2c ∧
    ((SysfsI2C.Tx k i2c addr w r).trace = [] ∨
      ∃ f arg, (SysfsI2C.Tx k i2c addr w r).trace
        = [.lock, .ioctl true f ioctlRdwr arg, .unlock]) ∧
    (∀ held f op arg, BusEvent.ioctl held f op arg ∈ (SysfsI2C.Tx k i2c addr w r).trace →
      held = true) ∧
    (addr ≥ 0x400 ∨ (w.length = 0 ∧ r.length = 0) →
      (SysfsI2C.Tx k i2c addr w r).trace = [] ∧
      BusEvent.lock ∉ (SysfsI2C.Tx k i2c addr w r).trace) := by
  refine ⟨?_, tx_channel_unchanged k i2c addr w r, tx_trace_cases k i2c addr w r, ?_, ?_⟩
  · intro ch hch hmu
    subst hch
    have hret : ∃ e, (SysfsI2C.Tx k (some ch) addr w r).ended = .returned e := by
      by_cases ha : addr ≥ 0x400
      · rw [tx_invalid k _ addr w r ha]
        exact ⟨_, rfl⟩
      · by_cases he : w.length = 0 ∧ r.length = 0
        · rw [tx_empty k _ addr w r (by omega) he.1 he.2]
          exact ⟨_, rfl⟩
        · rw [tx_run_eq k ch addr w r (by omega) he hmu]
          exact ⟨_, rfl⟩
    obtain ⟨e, he⟩ := hret
    exact ⟨e, ch, he, tx_channel_unchanged k (some ch) addr w r, hmu⟩
  · intro held f op arg hmem
    rcases tx_trace_cases k i2c addr w r with h | ⟨f1, arg1, h⟩
    · rw [h] at hmem; simp at hmem
    · rw [h] at hmem
      simp at hmem
      exact hmem.1
  · intro h
    have ht : (SysfsI2C.Tx k i2c addr w r).trace = [] := by
      by_cases ha : addr ≥ 0x400
      · rw [tx_invalid k i2c addr w r ha]
      · rcases h with h | h
        · exact absurd h ha
        · rw [tx_empty k i2c addr w r (by omega) h.1 h.2]
    exact ⟨ht, by rw [ht]; simp⟩

/-- Witness for C17: a failing transfer on a free channel returns the wrapped
error with the mutex free again, and a refused address never locks, even on a
channel whose mutex is held. -/
theorem C17_tx_lock_discipline_witness :
    (∃ e ch1, (SysfsI2C.Tx (Sys.reporting 5) (some ⟨1, some 3, false⟩) 0x48 [7] []).ended
        = .returned e ∧
      (SysfsI2C.Tx (Sys.reporting 5) (some ⟨1, some 3, false⟩) 0x48 [7] []).i2c = some ch1 ∧
      ch1.mu = false) ∧
    (SysfsI2C.Tx (Sys.reporting 5) (some ⟨1, some 3, true⟩) 0x400 [7] []).trace = [] :=
  ⟨(C17_tx_lock_discipline (Sys.reporting 5) (some ⟨1, some 3, false⟩) 0x48 [7] []).1
      ⟨1, some 3, false⟩ rfl rfl,
    ((C17_tx_lock_discipline (Sys.reporting 5) (some ⟨1, some 3, true⟩) 0x400 [7] []).2.2.2.2
      (Or.inl (by decide))).1⟩

/-! ## Shape of the staging arrays -/

/-- A register store changes no size. -/
theorem storeReg_dims {chip reg v : Nat} {w w1 : World}
    (h : storeReg chip reg v w = some w1) : w1.dims = w.dims := by
  unfold storeReg at h
  split at h
  · simp at h
  · next row hrow =>
    split at h
    · simp only [Option.some.injEq] at h
      subst h
      simp only [World.dims, Prod.mk.injEq, true_and]
      apply List.ext_getElem?
      intro j
      simp only [List.getElem?_map, List.getElem?_set]
      by_cases hj : chip = j
      · subst hj
        have hlt : chip < w.memgpiochipreg32.length := (List.getElem?_eq_some.1 hrow).1
        simp [hlt, hrow]
      · simp [hj]
    · simp at h

theorem setFutureState_dims (gpio : MMappedGPIOInCollection) (state : Bool) (w : World) :
    (gpio.SetFutureState state w).world.dims = w.dims := by
  obtain ⟨h1, _, _, h4, h5⟩ := setFutureState_frame gpio state w
  simp only [World.dims, h1, h4, h5]

theorem setStateNow_dims (o : RegisterOffsets) (gpio : MMappedGPIOInCollection)
    (state : Bool) (w : World) : (gpio.SetStateNow o state w).world.dims = w.dims := by
  unfold MMappedGPIOInCollection.SetStateNow MMappedGPIO.SetState
  simp only
  split
  · rfl
  · next w1 h => exact storeReg_dims h

theorem body_dims (o : RegisterOffsets) (i : Nat) (w : World) :
    (EndTransactionApplySetStates.body o i w).world.dims = w.dims := by
  unfold EndTransactionApplySetStates.body
  split
  · rfl
  · split
    · rfl
    · next w1 h1 =>
      have e1 := storeReg_dims h1
      split
      · exact e1
      · split
        · exact e1
        · next w2 h2 =>
          have e2 := storeReg_dims h2
          rw [← e1, ← e2]
          simp [Outcome.world, World.dims]

theorem loop_dims (o : RegisterOffsets) (is : List Nat) (w : World) :
    (EndTransactionApplySetStates.loop o is w).world.dims = w.dims := by
  induction is generalizing w with
  | nil => rfl
  | cons i rest ih =>
    have hb := body_dims o i w
    unfold EndTransactionApplySetStates.loop
    cases hbody : EndTransactionApplySetStates.body o i w with
    | panicked w1 => rw [hbody] at hb; exact hb
    | returned v w1 => rw [hbody] at hb; exact (ih w1).trans hb

theorem endTransaction_dims (o : RegisterOffsets) (w : World) :
    (EndTransactionApplySetStates o w).world.dims = w.dims := by
  have hl := loop_dims o (List.range w.gpiocf.gpios_to_set.length) w
  unfold EndTransactionApplySetStates
  cases hloop : EndTransactionApplySetStates.loop o (List.range w.gpiocf.gpios_to_set.length) w with
  | panicked w1 => rw [hloop] at hl; exact hl
  | returned v w1 => rw [hloop] at hl; exact hl

/-- No call changes a size, whether it returns or panics. -/
theorem call_dims (o : RegisterOffsets) (c : Call) (w : World) :
    (c.run o w).world.dims = w.dims := by
  cases c with
  | BeginTransactionRecordSetStates => rfl
  | EndTransactionApplySetStates => exact endTransaction_dims o w
  | SetFutureState gpio state =>
    simp only [Call.run, discard_world]
    exact setFutureState_dims gpio state w
  | SetState gpio state =>
    simp only [Call.run, discard_world, MMappedGPIOInCollection.SetState]
    split
    · exact setFutureState_dims gpio state w
    · exact setStateNow_dims o gpio state w
  | SetStateNow gpio state =>
    simp only [Call.run, discard_world]
    exact setStateNow_dims o gpio state w
  | GetFutureState gpio =>
    simp only [Call.run, discard_world]
    rw [getFutureState_world]

theorem runCalls_dims (o : RegisterOffsets) (calls : List Call) (w : World) :
    (runCalls o calls w).world.dims = w.dims := by
  induction calls generalizing w with
  | nil => rfl
  | cons c rest ih =>
    have hc := call_dims o c w
    unfold runCalls
    cases hrun : c.run o w with
    | panicked w1 => rw [hrun] at hc; exact hc
    | returned v w1 => rw [hrun] at hc; exact (ih w1).trans hc

/-- The shape of a state is a matter of its sizes only. -/
theorem shaped_of_dims {o : RegisterOffsets} {w w1 : World} (h : w1.dims = w.dims)
    (hw : w.Shaped o) : w1.Shaped o := by
  simp only [World.dims, Prod.mk.injEq] at h
  obtain ⟨hs, hk, hr⟩ := h
  have hlen : w1.memgpiochipreg32.length = w.memgpiochipreg32.length := by
    simpa using congrArg List.length hr
  obtain ⟨a, b, c⟩ := hw
  refine ⟨by omega, by omega, ?_⟩
  intro row hrow
  have hmem : row.length ∈ w1.memgpiochipreg32.map List.length := List.mem_map_of_mem _ hrow
  rw [hr] at hmem
  obtain ⟨row0, hrow0, hl⟩ := List.mem_map.1 hmem
  rw [← hl]
  exact c row0 hrow0

/-- C18. Array-shape invariant and commit safety: the constructor returns a
factory whose two staging arrays have one zero word per chip of the register
map and whose recording flag is off; after any sequence of calls both arrays
and the register map still have that length; so, every chip row holding the
two data-out registers, the state keeps the constructor's shape and
EndTransactionApplySetStates returns without an index out of range. -/
theorem C18_shape_invariant (o : RegisterOffsets) (regs : List (List Nat))
    (history : List RegWrite) (calls : List Call) :
    ((NewMMapedGPIOCollectionFactory regs).gpios_to_set.length = regs.length ∧
      (NewMMapedGPIOCollectionFactory regs).gpios_to_clear.length = regs.length ∧
      StagingZero (NewMMapedGPIOCollectionFactory regs) ∧
      (NewMMapedGPIOCollectionFactory regs).record_changes = false) ∧
    ((runCalls o calls (World.fresh regs history)).world.gpiocf.gpios_to_set.length
        = regs.length ∧
      (runCalls o calls (World.fresh regs history)).world.gpiocf.gpios_to_clear.length
        = regs.length ∧
      (runCalls o calls (World.fresh regs history)).world.memgpiochipreg32.length
        = regs.length) ∧
    ((∀ row ∈ regs, o.intgpio_setdataout_o32_ < row.length ∧
          o.intgpio_cleardataout_o32_ < row.length) →
      (runCalls o calls (World.fresh regs history)).world.Shaped o ∧
      ∃ w2, EndTransactionApplySetStates o
        (runCalls o calls (World.fresh regs history)).world = .returned () w2) := by
  have hd := runCalls_dims o calls (World.fresh regs history)
  refine ⟨⟨by simp [NewMMapedGPIOCollectionFactory], by simp [NewMMapedGPIOCollectionFactory],
    stagingZero_fresh regs, rfl⟩, ?_, ?_⟩
  · simp only [World.dims, Prod.mk.injEq] at hd
    obtain ⟨hs, hk, hr⟩ := hd
    refine ⟨?_, ?_, ?_⟩
    · rw [hs]; simp [World.fresh, NewMMapedGPIOCollectionFactory]
    · rw [hk]; simp [World.fresh, NewMMapedGPIOCollectionFactory]
    · have := congrArg List.length hr
      simpa [World.fresh] using this
  · intro hrows
    have hfresh : (World.fresh regs history).Shaped o :=
      ⟨by simp [World.fresh, NewMMapedGPIOCollectionFactory],
        by simp [World.fresh, NewMMapedGPIOCollectionFactory], hrows⟩
    have hw1 := shaped_of_dims hd hfresh
    obtain ⟨w2, _, hret⟩ := endTransaction_shaped o _ hw1
    exact ⟨hw1, _, hret⟩

/-- Witness for C18: a two-chip register map; after a begin, a deferred write
on a chip that does not exist (which panics) the arrays still have length 2
and the commit returns. -/
theorem C18_shape_invariant_witness :
    (∀ row ∈ [[0, 0], [0, 0]], (⟨1, 0⟩ : RegisterOffsets).intgpio_setdataout_o32_ < row.length ∧
        (⟨1, 0⟩ : RegisterOffsets).intgpio_cleardataout_o32_ < row.length) ∧
    (runCalls ⟨1, 0⟩ [.BeginTransactionRecordSetStates, .SetState ⟨⟨1, 3⟩⟩ true,
        .SetFutureState ⟨⟨7, 3⟩⟩ true]
      (World.fresh [[0, 0], [0, 0]] [])).world.Shaped ⟨1, 0⟩ ∧
    ∃ w2, EndTransactionApplySetStates ⟨1, 0⟩
      (runCalls ⟨1, 0⟩ [.BeginTransactionRecordSetStates, .SetState ⟨⟨1, 3⟩⟩ true,
          .SetFutureState ⟨⟨7, 3⟩⟩ true]
        (World.fresh [[0, 0], [0, 0]] [])).world = .returned () w2 :=
  ⟨by decide,
    (C18_shape_invariant ⟨1, 0⟩ [[0, 0], [0, 0]] []
      [.BeginTransactionRecordSetStates, .SetState ⟨⟨1, 3⟩⟩ true,
        .SetFutureState ⟨⟨7, 3⟩⟩ true]).2.2 (by decide)⟩

/-! ## Deferred writes, bit by bit -/

theorem testBit_stageWord (s : Bool) (m x i : Nat) :
    (stageWord s m x).testBit i =
      (decide (i < 32) && (if s then (x.testBit i || m.testBit i)
        else (x.testBit i && !m.testBit i))) := by
  cases s
  · simp only [stageWord, Bool.false_eq_true, if_false, testBit_and32, testBit_not32]
    cases decide (i < 32) <;> simp
  · simp only [stageWord, if_true, testBit_or32]

/-- Two word updates with disjoint masks commute. -/
theorem stageWord_comm (s1 s2 : Bool) (m1 m2 x : Nat)
    (h : ∀ i, ¬ (m1.testBit i = true ∧ m2.testBit i = true)) :
    stageWord s1 m1 (stageWord s2 m2 x) = stageWord s2 m2 (stageWord s1 m1 x) := by
  apply Nat.eq_of_testBit_eq
  intro i
  have hi := h i
  simp only [testBit_stageWord]
  cases decide (i < 32) <;> cases s1 <;> cases s2 <;>
    cases h1 : m1.testBit i <;> cases h2 : m2.testBit i <;> cases x.testBit i <;> simp_all

theorem bit32_disjoint (b1 b2 : Nat) (h : b1 ≠ b2) (i : Nat) :
    ¬ ((bit32 b1).testBit i = true ∧ (bit32 b2).testBit i = true) := by
  simp only [testBit_bit32, Bool.and_eq_true, decide_eq_true_eq]
  rintro ⟨⟨_, h1⟩, ⟨_, h2⟩⟩
  exact h (h1.trans h2.symm)

/-- The test `x & uint32(1 << b) > 0` of the code, for every shift count. -/
theorem peek_eq (x b : Nat) :
    decide (and32 x (bit32 b) > 0) = (decide (b < 32) && x.testBit b) := by
  by_cases hb : b < 32
  · simp [and32_bit32_pos x b hb, hb]
  · have h0 : and32 x (bit32 b) = 0 := by
      rw [bit32_eq_zero b (by omega)]
      simp [and32, u32]
    simp [h0, hb]

/-- Two states with the same fields are the same state. -/
theorem world_ext {w1 w2 : World}
    (hs : w1.gpiocf.gpios_to_set = w2.gpiocf.gpios_to_set)
    (hk : w1.gpiocf.gpios_to_clear = w2.gpiocf.gpios_to_clear)
    (hf : w1.gpiocf.record_changes = w2.gpiocf.record_changes)
    (hr : w1.memgpiochipreg32 = w2.memgpiochipreg32)
    (hw : w1.writes = w2.writes) : w1 = w2 := by
  obtain ⟨⟨s1, k1, f1⟩, r1, h1⟩ := w1
  obtain ⟨⟨s2, k2, f2⟩, r2, h2⟩ := w2
  simp only at hs hk hf hr hw
  subst hs hk hf hr hw
  rfl

/-- A deferred write on a chip inside both staging arrays, word by word: the
chip's set word is updated with the pin's mask in the direction of `state`,
its clear word in the opposite direction, and nothing else changes. -/
theorem setFutureState_spec (gpio : MMappedGPIOInCollection) (state : Bool) (w : World)
    (hset : gpio.chipid < w.gpiocf.gpios_to_set.length)
    (hclear : gpio.chipid < w.gpiocf.gpios_to_clear.length) :
    ∃ w1, gpio.SetFutureState state w = .returned none w1 ∧
      w1.memgpiochipreg32 = w.memgpiochipreg32 ∧ w1.writes = w.writes ∧
      w1.gpiocf.record_changes = w.gpiocf.record_changes ∧
      (∀ j, w1.gpiocf.gpios_to_set[j]? = (w.gpiocf.gpios_to_set[j]?).map fun x =>
        if j = gpio.chipid then stageWord state (bit32 gpio.gpioid) x else x) ∧
      (∀ j, w1.gpiocf.gpios_to_clear[j]? = (w.gpiocf.gpios_to_clear[j]?).map fun x =>
        if j = gpio.chipid then stageWord (!state) (bit32 gpio.gpioid) x else x) := by
  have hs0 : w.gpiocf.gpios_to_set[gpio.chipid]? = some w.gpiocf.gpios_to_set[gpio.chipid] :=
    List.getElem?_eq_getElem hset
  have hk0 : w.gpiocf.gpios_to_clear[gpio.chipid]? = some w.gpiocf.gpios_to_clear[gpio.chipid] :=
    List.getElem?_eq_getElem hclear
  cases state
  · refine ⟨putSet gpio.chipid
        (and32 w.gpiocf.gpios_to_set[gpio.chipid] (not32 (bit32 gpio.gpioid)))
        (putClear gpio.chipid (or32 w.gpiocf.gpios_to_clear[gpio.chipid] (bit32 gpio.gpioid)) w),
      ?_, rfl, rfl, rfl, ?_, ?_⟩
    · simp only [MMappedGPIOInCollection.SetFutureState, Bool.false_eq_true, if_false, hk0,
        putClear_set, hs0]
    · intro j
      simp only [putSet_set, putClear_set, List.getElem?_set, hset, if_true]
      by_cases hj : gpio.chipid = j
      · subst hj; simp [hs0, stageWord]
      · have hj2 : ¬ j = gpio.chipid := fun h => hj h.symm
        simp [hj, hj2]
    · intro j
      simp only [putSet_clear, putClear_clear, List.getElem?_set, hclear, if_true]
      by_cases hj : gpio.chipid = j
      · subst hj; simp [hk0, stageWord]
      · have hj2 : ¬ j = gpio.chipid := fun h => hj h.symm
        simp [hj, hj2]
  · refine ⟨putClear gpio.chipid
        (and32 w.gpiocf.gpios_to_clear[gpio.chipid] (not32 (bit32 gpio.gpioid)))
        (putSet gpio.chipid (or32 w.gpiocf.gpios_to_set[gpio.chipid] (bit32 gpio.gpioid)) w),
      ?_, rfl, rfl, rfl, ?_, ?_⟩
    · simp only [MMappedGPIOInCollection.SetFutureState, if_true, hs0, putSet_clear, hk0]
    · intro j
      simp only [putSet_set, putClear_set, List.getElem?_set, hset, if_true]
      by_cases hj : gpio.chipid = j
      · subst hj; simp [hs0, stageWord]
      · have hj2 : ¬ j = gpio.chipid := fun h => hj h.symm
        simp [hj, hj2]
    · intro j
      simp only [putSet_clear, putClear_clear, List.getElem?_set, hclear, if_true]
      by_cases hj : gpio.chipid = j
      · subst hj; simp [hk0, stageWord]
      · have hj2 : ¬ j = gpio.chipid := fun h => hj h.symm
        simp [hj, hj2]

/-- A word update with the mask of bit `b` leaves every other bit position of
a 32-bit word alone. -/
theorem testBit_stageWord_other (s : Bool) (b x j : Nat) (hj : j < 32) (hne : j ≠ b) :
    (stageWord s (bit32 b) x).testBit j = x.testBit j := by
  have hb : ¬ b = j := fun h => hne h.symm
  simp [testBit_stageWord, testBit_bit32, hj, hb]

/-- A word update with the mask of bit `b < 32` makes that bit the state
written. -/
theorem testBit_stageWord_self (s : Bool) (b x : Nat) (hb : b < 32) :
    (stageWord s (bit32 b) x).testBit b = s := by
  cases s <;> simp [testBit_stageWord, testBit_bit32, hb]

/-- The value `GetFutureState` returns, read off the two staged words of the
chip. -/
theorem getFutureState_value (gpio : MMappedGPIOInCollection) (w : World) :
    (gpio.GetFutureState w).value? =
      match w.gpiocf.gpios_to_set[gpio.chipid]? with
      | none => none
      | some sw =>
        if (decide (gpio.gpioid < 32) && sw.testBit gpio.gpioid) = true then
          some (true, true, none)
        else
          match w.gpiocf.gpios_to_clear[gpio.chipid]? with
          | none => none
          | some cw => some ((decide (gpio.gpioid < 32) && cw.testBit gpio.gpioid), false, none) := by
  unfold MMappedGPIOInCollection.GetFutureState
  cases hs : w.gpiocf.gpios_to_set[gpio.chipid]? with
  | none => rfl
  | some sw =>
    simp only [peek_eq]
    by_cases hp : (decide (gpio.gpioid < 32) && sw.testBit gpio.gpioid) = true
    · simp only [hp, if_true, Outcome.value?]
    · simp only [hp, Bool.false_eq_true, if_false]
      cases hk : w.gpiocf.gpios_to_clear[gpio.chipid]? with
      | none => rfl
      | some cw =>
        simp only [Outcome.value?]

/-- The pending state of a pin is not affected by a deferred write to another
pin. -/
theorem getFutureState_other (gpio other : MMappedGPIOInCollection) (w w1 : World)
    (hne : other.chipid ≠ gpio.chipid ∨ other.gpioid ≠ gpio.gpioid) (s : Bool)
    (hs : ∀ j, w1.gpiocf.gpios_to_set[j]? = (w.gpiocf.gpios_to_set[j]?).map fun x =>
      if j = gpio.chipid then stageWord s (bit32 gpio.gpioid) x else x)
    (hk : ∀ j, w1.gpiocf.gpios_to_clear[j]? = (w.gpiocf.gpios_to_clear[j]?).map fun x =>
      if j = gpio.chipid then stageWord (!s) (bit32 gpio.gpioid) x else x) :
    (other.GetFutureState w1).value? = (other.GetFutureState w).value? := by
  have hbit : ∀ (t : Bool) (x : Nat),
      (decide (other.gpioid < 32) &&
        (if other.chipid = gpio.chipid then stageWord t (bit32 gpio.gpioid) x
          else x).testBit other.gpioid) =
      (decide (other.gpioid < 32) && x.testBit other.gpioid) := by
    intro t x
    by_cases hc : other.chipid = gpio.chipid
    · have hb : other.gpioid ≠ gpio.gpioid := by
        rcases hne with h | h
        · exact absurd hc h
        · exact h
      simp only [hc, if_true]
      by_cases h32 : other.gpioid < 32
      · rw [testBit_stageWord_other t _ x _ h32 hb]
      · simp [h32]
    · simp only [hc, if_false]
  rw [getFutureState_value, getFutureState_value, hs, hk]
  cases w.gpiocf.gpios_to_set[other.chipid]? with
  | none => rfl
  | some sw =>
    simp only [Option.map_some', hbit]
    cases w.gpiocf.gpios_to_clear[other.chipid]? with
    | none => rfl
    | some cw => simp only [Option.map_some', hbit]

/-- Deferred writes to two different pins commute. -/
theorem setFutureState_comm (p1 p2 : MMappedGPIOInCollection) (s1 s2 : Bool) (w : World)
    (h1s : p1.chipid < w.gpiocf.gpios_to_set.length)
    (h1k : p1.chipid < w.gpiocf.gpios_to_clear.length)
    (h2s : p2.chipid < w.gpiocf.gpios_to_set.length)
    (h2k : p2.chipid < w.gpiocf.gpios_to_clear.length)
    (hne : p2.chipid ≠ p1.chipid ∨ p2.gpioid ≠ p1.gpioid) :
    ∃ w12, p2.SetFutureState s2 (p1.SetFutureState s1 w).world = .returned none w12 ∧
      p1.SetFutureState s1 (p2.SetFutureState s2 w).world = .returned none w12 := by
  obtain ⟨wa, ha, har, haw, haf, has, hak⟩ := setFutureState_spec p1 s1 w h1s h1k
  obtain ⟨wb, hb, hbr, hbw, hbf, hbs, hbk⟩ := setFutureState_spec p2 s2 w h2s h2k
  obtain ⟨_, _, _, la1, la2⟩ := setFutureState_frame p1 s1 w
  obtain ⟨_, _, _, lb1, lb2⟩ := setFutureState_frame p2 s2 w
  rw [ha] at la1 la2
  rw [hb] at lb1 lb2
  simp only [Outcome.world] at la1 la2 lb1 lb2
  obtain ⟨wab, hab, habr, habw, habf, habs, habk⟩ :=
    setFutureState_spec p2 s2 wa (by omega) (by omega)
  obtain ⟨wba, hba, hbar, hbaw, hbaf, hbas, hbak⟩ :=
    setFutureState_spec p1 s1 wb (by omega) (by omega)
  have hmask : ∀ (t1 t2 : Bool) (j x : Nat),
      (if j = p2.chipid then stageWord t2 (bit32 p2.gpioid)
          (if j = p1.chipid then stageWord t1 (bit32 p1.gpioid) x else x)
        else (if j = p1.chipid then stageWord t1 (bit32 p1.gpioid) x else x)) =
      (if j = p1.chipid then stageWord t1 (bit32 p1.gpioid)
          (if j = p2.chipid then stageWord t2 (bit32 p2.gpioid) x else x)
        else (if j = p2.chipid then stageWord t2 (bit32 p2.gpioid) x else x)) := by
    intro t1 t2 j x
    by_cases hj1 : j = p1.chipid <;> by_cases hj2 : j = p2.chipid
    · have hb12 : p2.gpioid ≠ p1.gpioid := by
        rcases hne with h | h
        · exact absurd (hj2.symm.trans hj1) h
        · exact h
      simp only [if_pos hj1, if_pos hj2]
      exact stageWord_comm t2 t1 _ _ x (bit32_disjoint _ _ hb12)
    · simp only [if_pos hj1, if_neg hj2]
    · simp only [if_neg hj1, if_pos hj2]
    · simp only [if_neg hj1, if_neg hj2]
  have heq : wab = wba := by
    apply world_ext
    · apply List.ext_getElem?
      intro j
      rw [habs j, has j, hbas j, hbs j]
      cases w.gpiocf.gpios_to_set[j]? with
      | none => rfl
      | some x => simp only [Option.map_some', hmask]
    · apply List.ext_getElem?
      intro j
      rw [habk j, hak j, hbak j, hbk j]
      cases w.gpiocf.gpios_to_clear[j]? with
      | none => rfl
      | some x => simp only [Option.map_some', hmask]
    · rw [habf, haf, hbaf, hbf]
    · rw [habr, har, hbar, hbr]
    · rw [habw, haw, hbaw, hbw]
  refine ⟨wab, ?_, ?_⟩
  · rw [ha]; exact hab
  · rw [hb, heq]; exact hba

/-- C19. Frame of a deferred write: for a handle of pin (c, b) with c inside
both staging arrays and b in 0..31, SetFutureState(s) returns nil; the register
file, the history of register stores and record_changes are unchanged; both
masks of every other chip are unchanged; in chip c's two masks every bit
position 0..31 other than b is unchanged; GetFutureState of every other pin
returns what it returned before; and the write commutes with a deferred write
to any other pin. -/
theorem C19_deferred_write_frame (w : World) (gpio : MMappedGPIOInCollection) (s : Bool)
    (hset : gpio.chipid < w.gpiocf.gpios_to_set.length)
    (hclear : gpio.chipid < w.gpiocf.gpios_to_clear.length)
    (hbit : gpio.gpioid < 32) :
    ∃ w1, gpio.SetFutureState s w = .returned none w1 ∧
      w1.memgpiochipreg32 = w.memgpiochipreg32 ∧ w1.writes = w.writes ∧
      w1.gpiocf.record_changes = w.gpiocf.record_changes ∧
      (∀ c, c ≠ gpio.chipid →
        w1.gpiocf.gpios_to_set[c]? = w.gpiocf.gpios_to_set[c]? ∧
        w1.gpiocf.gpios_to_clear[c]? = w.gpiocf.gpios_to_clear[c]?) ∧
      (∃ ms mc, w1.gpiocf.gpios_to_set[gpio.chipid]? = some ms ∧
        w1.gpiocf.gpios_to_clear[gpio.chipid]? = some mc ∧
        ms.testBit gpio.gpioid = s ∧ mc.testBit gpio.gpioid = !s ∧
        ∀ j, j < 32 → j ≠ gpio.gpioid →
          ms.testBit j = w.gpiocf.gpios_to_set[gpio.chipid].testBit j ∧
          mc.testBit j = w.gpiocf.gpios_to_clear[gpio.chipid].testBit j) ∧
      (∀ other : MMappedGPIOInCollection,
        other.chipid ≠ gpio.chipid ∨ other.gpioid ≠ gpio.gpioid →
        (other.GetFutureState w1).value? = (other.GetFutureState w).value?) ∧
      (∀ (other : MMappedGPIOInCollection) (s2 : Bool),
        other.chipid < w.gpiocf.gpios_to_set.length →
        other.chipid < w.gpiocf.gpios_to_clear.length →
        other.chipid ≠ gpio.chipid ∨ other.gpioid ≠ gpio.gpioid →
        ∃ w12, other.SetFutureState s2 w1 = .returned none w12 ∧
          gpio.SetFutureState s (other.SetFutureState s2 w).world = .returned none w12) := by
  obtain ⟨w1, hret, hr, hw, hf, hs, hk⟩ := setFutureState_spec gpio s w hset hclear
  refine ⟨w1, hret, hr, hw, hf, ?_, ?_, ?_, ?_⟩
  · intro c hc
    rw [hs c, hk c]
    simp only [hc, if_false]
    exact ⟨by cases w.gpiocf.gpios_to_set[c]? <;> rfl,
      by cases w.gpiocf.gpios_to_clear[c]? <;> rfl⟩
  · refine ⟨stageWord s (bit32 gpio.gpioid) w.gpiocf.gpios_to_set[gpio.chipid],
      stageWord (!s) (bit32 gpio.gpioid) w.gpiocf.gpios_to_clear[gpio.chipid], ?_, ?_,
      testBit_stageWord_self s _ _ hbit, testBit_stageWord_self (!s) _ _ hbit, ?_⟩
    · rw [hs, List.getElem?_eq_getElem hset]; simp
    · rw [hk, List.getElem?_eq_getElem hclear]; simp
    · intro j hj hne
      exact ⟨testBit_stageWord_other s _ _ j hj hne, testBit_stageWord_other (!s) _ _ j hj hne⟩
  · intro other hne
    exact getFutureState_other gpio other w w1 hne s hs hk
  · intro other s2 h2s h2k hne
    obtain ⟨w12, h1, h2⟩ := setFutureState_comm gpio other s s2 w hset hclear h2s h2k hne
    rw [hret] at h1
    exact ⟨w12, h1, h2⟩

/-- Witness for C19: pin (0, 3) is staged high in a state that holds pin
(0, 4) pending low and pin (1, 0) pending high. -/
theorem C19_deferred_write_frame_witness :
    (0 < [0, 1].length ∧ 0 < [16, 0].length ∧ 3 < 32) ∧
    ∃ w1, (⟨⟨0, 3⟩⟩ : MMappedGPIOInCollection).SetFutureState true
        ⟨⟨[0, 1], [16, 0], true⟩, [[0, 0], [0, 0]], []⟩ = .returned none w1 ∧
      w1 = ⟨⟨[8, 1], [16, 0], true⟩, [[0, 0], [0, 0]], []⟩ ∧
      ((⟨⟨0, 4⟩⟩ : MMappedGPIOInCollection).GetFutureState w1).value?
        = some (true, false, none) := by
  refine ⟨by decide, ?_⟩
  obtain ⟨w1, hret, _, _, _, _, _, hother, _⟩ :=
    C19_deferred_write_frame ⟨⟨[0, 1], [16, 0], true⟩, [[0, 0], [0, 0]], []⟩ ⟨⟨0, 3⟩⟩ true
      (by decide) (by decide) (by decide)
  have hw1 : w1 = ⟨⟨[8, 1], [16, 0], true⟩, [[0, 0], [0, 0]], []⟩ := by
    have hc : (⟨⟨0, 3⟩⟩ : MMappedGPIOInCollection).SetFutureState true
        ⟨⟨[0, 1], [16, 0], true⟩, [[0, 0], [0, 0]], []⟩
        = .returned none ⟨⟨[8, 1], [16, 0], true⟩, [[0, 0], [0, 0]], []⟩ := by decide
    rw [hc] at hret
    exact (Outcome.returned.inj hret).2.symm
  refine ⟨w1, hret, hw1, ?_⟩
  rw [hother ⟨⟨0, 4⟩⟩ (Or.inr (by decide))]
  decide

/-! ## A whole transaction -/

/-- The bit of a pin after a run of deferred writes on in-range handles: the
state written last, or the bit before the run when the pin is not written. The
run returns. -/
theorem runDeferred_bits (o : RegisterOffsets) (ws : List (MMappedGPIOInCollection × Bool))
    (w : World)
    (hin : ∀ p ∈ ws, p.1.chipid < w.gpiocf.gpios_to_set.length ∧
      p.1.chipid < w.gpiocf.gpios_to_clear.length ∧ p.1.gpioid < 32) :
    ∃ w1, runCalls o (ws.map fun p => Call.SetFutureState p.1 p.2) w = .returned () w1 ∧
      ∀ c b, b < 32 →
        (∀ x0, w.gpiocf.gpios_to_set[c]? = some x0 →
          ∃ x1, w1.gpiocf.gpios_to_set[c]? = some x1 ∧
            x1.testBit b = (lastWrite ws c b).getD (x0.testBit b)) ∧
        (∀ x0, w.gpiocf.gpios_to_clear[c]? = some x0 →
          ∃ x1, w1.gpiocf.gpios_to_clear[c]? = some x1 ∧
            x1.testBit b = ((lastWrite ws c b).map (!·)).getD (x0.testBit b)) := by
  induction ws generalizing w with
  | nil =>
    refine ⟨w, rfl, ?_⟩
    intro c b _
    exact ⟨fun x0 h => ⟨x0, h, rfl⟩, fun x0 h => ⟨x0, h, rfl⟩⟩
  | cons p rest ih =>
    obtain ⟨hps, hpk, hpb⟩ := hin p (List.mem_cons_self _ _)
    obtain ⟨wa, hret, _, _, _, hs, hk⟩ := setFutureState_spec p.1 p.2 w hps hpk
    obtain ⟨_, _, _, l1, l2⟩ := setFutureState_frame p.1 p.2 w
    rw [hret] at l1 l2
    simp only [Outcome.world] at l1 l2
    have hin2 : ∀ q ∈ rest, q.1.chipid < wa.gpiocf.gpios_to_set.length ∧
        q.1.chipid < wa.gpiocf.gpios_to_clear.length ∧ q.1.gpioid < 32 := by
      intro q hq
      have := hin q (List.mem_cons_of_mem _ hq)
      rw [l1, l2]
      exact this
    obtain ⟨w1, hrun, hbits⟩ := ih wa hin2
    refine ⟨w1, ?_, ?_⟩
    · simp only [List.map_cons, runCalls, Call.run, hret, Outcome.discard]
      exact hrun
    · intro c b hb
      obtain ⟨hS, hK⟩ := hbits c b hb
      constructor
      · intro x0 hx0
        have hxa := hs c
        rw [hx0] at hxa
        simp only [Option.map_some'] at hxa
        obtain ⟨x1, hx1, hbit⟩ := hS _ hxa
        refine ⟨x1, hx1, ?_⟩
        rw [hbit]
        simp only [lastWrite]
        cases hl : lastWrite rest c b with
        | some t => rfl
        | none =>
          simp only [Option.getD_none]
          by_cases hc : c = p.1.chipid
          · by_cases hbb : b = p.1.gpioid
            · subst hc hbb
              simp [testBit_stageWord_self _ _ _ hpb]
            · have : ¬ (p.1.chipid = c ∧ p.1.gpioid = b) := fun h => hbb h.2.symm
              rw [if_neg this]
              simp only [if_pos hc, Option.getD_none]
              exact testBit_stageWord_other _ _ _ b hb hbb
          · have : ¬ (p.1.chipid = c ∧ p.1.gpioid = b) := fun h => hc h.1.symm
            rw [if_neg this]
            simp only [if_neg hc, Option.getD_none]
      · intro x0 hx0
        have hxa := hk c
        rw [hx0] at hxa
        simp only [Option.map_some'] at hxa
        obtain ⟨x1, hx1, hbit⟩ := hK _ hxa
        refine ⟨x1, hx1, ?_⟩
        rw [hbit]
        simp only [lastWrite]
        cases hl : lastWrite rest c b with
        | some t => rfl
        | none =>
          simp only [Option.map_none', Option.getD_none]
          by_cases hc : c = p.1.chipid
          · by_cases hbb : b = p.1.gpioid
            · subst hc hbb
              simp [testBit_stageWord_self _ _ _ hpb]
            · have : ¬ (p.1.chipid = c ∧ p.1.gpioid = b) := fun h => hbb h.2.symm
              rw [if_neg this]
              simp only [if_pos hc, Option.map_none', Option.getD_none]
              exact testBit_stageWord_other _ _ _ b hb hbb
          · have : ¬ (p.1.chipid = c ∧ p.1.gpioid = b) := fun h => hc h.1.symm
            rw [if_neg this]
            simp only [if_neg hc, Option.map_none', Option.getD_none]

/-- C20. End-to-end transaction result: from a well-shaped state whose staging
arrays are all zero, any finite list of SetFutureState calls on handles with
in-range chip id and bit id in 0..31 returns, the commit that follows returns,
and its stores are the flush of the staged masks: for every chip c and bit b
in 0..31 the value stored to chip c's set-data-out register has bit b set iff
the last write to (c, b) in the list was true, the value stored to its
clear-data-out register has bit b set iff the last write to (c, b) was false,
and both bits are 0 iff (c, b) was never written. -/
theorem C20_transaction_result (o : RegisterOffsets) (w : World)
    (ws : List (MMappedGPIOInCollection × Bool)) (hw : w.Shaped o)
    (hz : StagingZero w.gpiocf)
    (hne : o.intgpio_setdataout_o32_ ≠ o.intgpio_cleardataout_o32_)
    (hin : ∀ p ∈ ws, p.1.chipid < w.memgpiochipreg32.length ∧ p.1.gpioid < 32) :
    ∃ w1 w2,
      runCalls o (ws.map fun p => Call.SetFutureState p.1 p.2) w = .returned () w1 ∧
      EndTransactionApplySetStates o w1 = .returned () w2 ∧
      w2.writes = w.writes ++ flushWrites o w1.gpiocf ∧
      (∀ c, c < w.memgpiochipreg32.length → ∃ s k,
        (⟨c, o.intgpio_setdataout_o32_, s⟩ : RegWrite) ∈ flushWrites o w1.gpiocf ∧
        (⟨c, o.intgpio_cleardataout_o32_, k⟩ : RegWrite) ∈ flushWrites o w1.gpiocf) ∧
      ∀ c s k,
        (⟨c, o.intgpio_setdataout_o32_, s⟩ : RegWrite) ∈ flushWrites o w1.gpiocf →
        (⟨c, o.intgpio_cleardataout_o32_, k⟩ : RegWrite) ∈ flushWrites o w1.gpiocf →
        ∀ b, b < 32 →
          (s.testBit b = true ↔ lastWrite ws c b = some true) ∧
          (k.testBit b = true ↔ lastWrite ws c b = some false) ∧
          ((s.testBit b = false ∧ k.testBit b = false) ↔ lastWrite ws c b = none) := by
  have hin1 : ∀ p ∈ ws, p.1.chipid < w.gpiocf.gpios_to_set.length ∧
      p.1.chipid < w.gpiocf.gpios_to_clear.length ∧ p.1.gpioid < 32 := by
    intro p hp
    obtain ⟨h1, h2⟩ := hin p hp
    exact ⟨by rw [hw.1]; exact h1, by rw [hw.2.1]; exact h1, h2⟩
  obtain ⟨w1, hrun, hbits⟩ := runDeferred_bits o ws w hin1
  obtain ⟨f1, f2, _, f4, f5⟩ := runDeferred_frame o ws w
  rw [hrun] at f1 f2 f4 f5
  simp only [Outcome.world] at f1 f2 f4 f5
  have hw1 : w1.Shaped o := shaped_of_frame hw f1 f4 f5
  obtain ⟨w2, hinv, hret⟩ := endTransaction_shaped o w1 hw1
  refine ⟨w1, _, hrun, hret, ?_, ?_, ?_⟩
  · simp only [hinv.writes_eq, flushWrites, hw1.1, f2]
  · intro c hc
    have hc1 : c < w1.gpiocf.gpios_to_set.length := by rw [f4, hw.1]; exact hc
    refine ⟨w1.gpiocf.gpios_to_set.getD c 0, w1.gpiocf.gpios_to_clear.getD c 0, ?_, ?_⟩
    · simp only [flushWrites, List.mem_flatMap, List.mem_range]
      exact ⟨c, hc1, by simp⟩
    · simp only [flushWrites, List.mem_flatMap, List.mem_range]
      exact ⟨c, hc1, by simp⟩
  · intro c s k hs hk b hb
    obtain ⟨hc, hs1⟩ := getD_flush_set hs
    obtain ⟨_, hk1⟩ := getD_flush_set hk
    have hcs : c < w.gpiocf.gpios_to_set.length := by rw [← f4]; exact hc
    have hck : c < w.gpiocf.gpios_to_clear.length := by rw [hw.2.1, ← hw.1]; exact hcs
    obtain ⟨hS, hK⟩ := hbits c b hb
    obtain ⟨x1, hx1, hxb⟩ := hS _ (List.getElem?_eq_getElem hcs)
    obtain ⟨y1, hy1, hyb⟩ := hK _ (List.getElem?_eq_getElem hck)
    rw [hz.1 _ (List.getElem_mem hcs)] at hxb
    rw [hz.2 _ (List.getElem_mem hck)] at hyb
    have hsx : s = x1 := by
      rcases hs1 with ⟨_, h⟩ | ⟨h, _⟩
      · rw [h, List.getD_eq_getElem?_getD, hx1]; rfl
      · exact absurd h hne
    have hky : k = y1 := by
      rcases hk1 with ⟨h, _⟩ | ⟨_, h⟩
      · exact absurd h.symm hne
      · rw [h, List.getD_eq_getElem?_getD, hy1]; rfl
    subst hsx hky
    rw [hxb, hyb]
    cases lastWrite ws c b with
    | none => simp
    | some t => cases t <;> simp

/-- Witness for C20: on a fresh two-chip factory pin (0, 3) is staged high and
then low, pin (1, 0) high; pin (0, 3) ends in the clear store only. -/
theorem C20_transaction_result_witness :
    ((World.fresh [[0, 0], [0, 0]] []).Shaped ⟨1, 0⟩ ∧
      StagingZero (World.fresh [[0, 0], [0, 0]] []).gpiocf ∧
      (⟨1, 0⟩ : RegisterOffsets).intgpio_setdataout_o32_ ≠
        (⟨1, 0⟩ : RegisterOffsets).intgpio_cleardataout_o32_ ∧
      ∀ p ∈ ([(⟨⟨0, 3⟩⟩, true), (⟨⟨0, 3⟩⟩, false), (⟨⟨1, 0⟩⟩, true)] :
          List (MMappedGPIOInCollection × Bool)),
        p.1.chipid < (World.fresh [[0, 0], [0, 0]] []).memgpiochipreg32.length ∧
          p.1.gpioid < 32) ∧
    lastWrite [(⟨⟨0, 3⟩⟩, true), (⟨⟨0, 3⟩⟩, false), (⟨⟨1, 0⟩⟩, true)] 0 3 = some false ∧
    ∃ w1 w2,
      runCalls ⟨1, 0⟩ (([(⟨⟨0, 3⟩⟩, true), (⟨⟨0, 3⟩⟩, false), (⟨⟨1, 0⟩⟩, true)] :
          List (MMappedGPIOInCollection × Bool)).map fun p => Call.SetFutureState p.1 p.2)
        (World.fresh [[0, 0], [0, 0]] []) = .returned () w1 ∧
      EndTransactionApplySetStates ⟨1, 0⟩ w1 = .returned () w2 ∧
      w2.writes = [] ++ flushWrites ⟨1, 0⟩ w1.gpiocf := by
  refine ⟨by decide, by decide, ?_⟩
  obtain ⟨w1, w2, h1, h2, h3, _⟩ :=
    C20_transaction_result ⟨1, 0⟩ (World.fresh [[0, 0], [0, 0]] [])
      [(⟨⟨0, 3⟩⟩, true), (⟨⟨0, 3⟩⟩, false), (⟨⟨1, 0⟩⟩, true)]
      (by decide) (by decide) (by decide) (by decide)
  exact ⟨w1, w2, h1, h2, h3⟩
end Bbhw
